import Mathlib

/-!
Antilink: a verification development for `src/main.js`.

The bot watches group messages, detects links with a regular expression and
removes non-admin senders who post them; admins toggle the policy per group.

The embedding is shallow:

* the regular expression literal of `handleIncomingMessages` is a value of a
  small regular-expression type, run by a derivative matcher;
* the handlers are functions over an explicit state (the `GroupSettings`
  collection and the list of calls issued to the socket) and an explicit
  environment (what the messaging backend and the database answer);
* `await` on a rejected promise is an `Except.error` that ends the handler;
* the sockets and their listeners are an explicit list, so that reconnection
  can be followed event by event.
-/

namespace Antilink

/-! ## Regular expressions -/

/-- Regular expressions over characters; a character set is a predicate. -/
inductive RE where
  | empty : RE
  | eps : RE
  | cls (p : Char → Bool) : RE
  | seq (a b : RE) : RE
  | alt (a b : RE) : RE
  | star (a : RE) : RE

namespace RE

/-- The strings a regular expression denotes. -/
def lang : RE → List Char → Prop
  | empty, _ => False
  | eps, s => s = []
  | cls p, s => ∃ c, s = [c] ∧ p c = true
  | seq a b, s => ∃ u v, s = u ++ v ∧ lang a u ∧ lang b v
  | alt a b, s => lang a s ∨ lang b s
  | star a, s => ∃ L : List (List Char), s = L.flatten ∧ ∀ x ∈ L, lang a x

/-- Whether the empty string is denoted. -/
def nullable : RE → Bool
  | empty => false
  | eps => true
  | cls _ => false
  | seq a b => nullable a && nullable b
  | alt a b => nullable a || nullable b
  | star _ => true

/-- Brzozowski derivative with respect to one character. -/
def deriv : RE → Char → RE
  | empty, _ => empty
  | eps, _ => empty
  | cls p, c => if p c then eps else empty
  | seq a b, c =>
      if nullable a then alt (seq (deriv a c) b) (deriv b c) else seq (deriv a c) b
  | alt a b, c => alt (deriv a c) (deriv b c)
  | star a, c => seq (deriv a c) (star a)

/-- Some prefix of the input is matched: an attempt at one start position. -/
def matchAt : RE → List Char → Bool
  | r, [] => nullable r
  | r, c :: cs => nullable r || matchAt (deriv r c) cs

/-- The attempt is made at every start position, left to right, as
`RegExp.prototype.test` does from `lastIndex = 0`. -/
def search : RE → List Char → Bool
  | r, [] => matchAt r []
  | r, c :: cs => matchAt r (c :: cs) || search r cs

/-- One or more repetitions, `a+`. -/
def plus (a : RE) : RE := seq a (star a)

/-- Zero or one occurrence, `a?`. -/
def opt (a : RE) : RE := alt a eps

/-- Two or more repetitions, `a{2,}`. -/
def atLeastTwo (a : RE) : RE := seq a (seq a (star a))

end RE

/-- The `Canonicalize` operation of a case-insensitive pattern without the
unicode flag: upper-casing, except that a character outside ASCII is never
mapped into ASCII. Every pattern character of `linkRegex` is ASCII, so only
the ASCII part of the mapping can make a comparison succeed. -/
def canonicalize (c : Char) : Char := c.toUpper

/-- The class `\s`: the WhiteSpace and LineTerminator code points of ECMAScript. -/
def isJsSpace (c : Char) : Bool :=
  let n := c.toNat
  (9 ≤ n && n ≤ 13) || n == 32 || n == 160 || n == 5760 || (8192 ≤ n && n ≤ 8202)
    || n == 8232 || n == 8233 || n == 8239 || n == 8287 || n == 12288 || n == 65279

/-- The class `[^\s]`; no character canonicalizes to a white-space character. -/
def notSpace (c : Char) : Bool := !isJsSpace c

/-- The class `[a-zA-Z0-9-]`. It holds both cases of every letter and no
character outside ASCII canonicalizes into it, so the `i` flag leaves it as it is. -/
def labelChar (c : Char) : Bool :=
  ('a' ≤ c && c ≤ 'z') || ('A' ≤ c && c ≤ 'Z') || ('0' ≤ c && c ≤ '9') || c == '-'

/-- The class `[a-zA-Z]`, which the `i` flag leaves as it is for the same reason. -/
def asciiLetter (c : Char) : Bool :=
  ('a' ≤ c && c ≤ 'z') || ('A' ≤ c && c ≤ 'Z')

/-- A pattern character under the `i` flag. -/
def ci (c : Char) : RE := RE.cls (fun x => canonicalize x == canonicalize c)

/-- A literal run of pattern characters under the `i` flag. -/
def ciLit : List Char → RE
  | [] => RE.eps
  | c :: cs => RE.seq (ci c) (ciLit cs)

/-- The scheme part `(?:https?:\/\/|www\.)` of the first alternative. -/
def schemeRegex : RE :=
  RE.alt
    (RE.seq (ciLit ['h', 't', 't', 'p']) (RE.seq (RE.opt (ci 's')) (ciLit [':', '/', '/'])))
    (ciLit ['w', 'w', 'w', '.'])

/-- The first alternative, `(?:https?:\/\/|www\.)[^\s]+`. -/
def prefixedRegex : RE := RE.seq schemeRegex (RE.plus (RE.cls notSpace))

/-- One label and its dot, `[a-zA-Z0-9-]+\.`. -/
def labelDotRegex : RE := RE.seq (RE.plus (RE.cls labelChar)) (ci '.')

/-- The second alternative, `(?:[a-zA-Z0-9-]+\.)+[a-zA-Z]{2,}(\/[^\s]*)?`. -/
def domainRegex : RE :=
  RE.seq
    (RE.plus labelDotRegex)
    (RE.seq (RE.atLeastTwo (RE.cls asciiLetter))
      (RE.opt (RE.seq (ci '/') (RE.star (RE.cls notSpace)))))

/-- The pattern of `handleIncomingMessages`:
`/(?:https?:\/\/|www\.)[^\s]+|(?:[a-zA-Z0-9-]+\.)+[a-zA-Z]{2,}(\/[^\s]*)?/gi`. -/
def linkRegex : RE := RE.alt prefixedRegex domainRegex

/-- The call `linkRegex.test(text)`. The literal is evaluated anew on each call
of the handler, so `lastIndex` is 0 and the `g` flag has no effect. -/
def linkRegexTest (text : String) : Bool := RE.search linkRegex text.toList


/-! ## The classifier as the specification words it -/

/-- Specification wording: a non-whitespace character. -/
def SpecNonSpace (c : Char) : Prop := isJsSpace c = false

/-- Specification wording: `http://`, `https://` or `www.` in any letter case,
followed by a non-whitespace character. -/
def SpecPrefixedLink (m : List Char) : Prop :=
  ∃ scheme c, m = scheme ++ [c] ∧ SpecNonSpace c ∧
    (scheme.map Char.toLower = "http://".toList ∨
     scheme.map Char.toLower = "https://".toList ∨
     scheme.map Char.toLower = "www.".toList)

/-- Specification wording: a label, a non-empty run over `[A-Za-z0-9-]`. -/
def SpecLabel (l : List Char) : Prop :=
  l ≠ [] ∧ ∀ c ∈ l, c.isAlphanum = true ∨ c = '-'

/-- Specification wording: one or more labels, each followed by `.`, then a
final label of two or more ASCII letters. -/
def SpecBareDomain (m : List Char) : Prop :=
  ∃ (labels : List (List Char)) (tld : List Char),
    labels ≠ [] ∧ (∀ l ∈ labels, SpecLabel l) ∧
    2 ≤ tld.length ∧ (∀ c ∈ tld, c.isAlpha = true) ∧
    m = (labels.map (fun l => l ++ ['.'])).flatten ++ tld

/-- Specification wording: the text contains a substring of one of the two forms. -/
def SpecContainsLink (text : String) : Prop :=
  ∃ p m q, text.toList = p ++ m ++ q ∧ (SpecPrefixedLink m ∨ SpecBareDomain m)

/-! ## Messages, group metadata and the settings collection -/

/-- The key of a message: `remoteJid`, `fromMe`, `id`, `participant`. For a group
message `participant` is the sender (`senderId` of `InboundMessage`). -/
structure MessageKey where
  remoteJid : String
  fromMe : Bool
  id : String
  participant : String
  deriving DecidableEq

/-- The `extendedTextMessage` field of a message body. -/
structure ExtendedTextMessage where
  text : Option String
  deriving DecidableEq

/-- The body `message.message`, with the two fields the handlers read. -/
structure MessageContent where
  conversation : Option String
  extendedTextMessage : Option ExtendedTextMessage
  deriving DecidableEq

/-- One item of a `messages.upsert` event. -/
structure WAMessage where
  key : MessageKey
  message : Option MessageContent
  deriving DecidableEq

/-- One entry of `group.participants`; `admin` is `'admin'`, `'superadmin'` or absent. -/
structure GroupParticipant where
  id : String
  admin : Option String
  deriving DecidableEq

/-- The answer of `Bloom.groupMetadata(groupId)`. -/
structure GroupMetadata where
  participants : List GroupParticipant
  deriving DecidableEq

/-- A document of the `GroupSettings` collection (`groupSettingsSchema`). -/
structure GroupSettings where
  groupId : String
  antiLink : Bool
  deriving DecidableEq

/-- The second argument of `Bloom.sendMessage`. -/
inductive Content where
  | text (text : String) (mentions : List String)
  | delete (key : MessageKey)
  deriving DecidableEq

/-- A call issued to the socket that changes something outside the process. -/
inductive SocketCall where
  | sendMessage (jid : String) (content : Content)
  | groupParticipantsUpdate (jid : String) (participants : List String) (action : String)
  deriving DecidableEq

/-- The reason a promise was rejected with. -/
abbrev Err := String

/-- What the collaborators answer while one event is handled: the membership
lookup, whether the backend rejects a call, and whether the database is
unreachable. -/
structure Env where
  groupMetadata : String → Except Err GroupMetadata
  reject : SocketCall → Option Err
  dbError : Option Err

/-- The state the handlers act on: the `GroupSettings` collection in natural
order and every call issued to the socket so far, accepted or not. -/
structure State where
  store : List GroupSettings
  calls : List SocketCall
  deriving DecidableEq

/-- The outcome of an `async` handler: fulfilled or rejected, and the state it left. -/
abbrev Outcome := Except Err Unit × State

/-! ## Helpers of the handlers -/

/-- The test `groupId.endsWith('@g.us')`. -/
def isGroupJid (jid : String) : Bool := "@g.us".toList.isSuffixOf jid.toList

/-- The operand `a || b` for an optional string `a`: `undefined`, `null` and `''`
are falsy. -/
def orElse (a : Option String) (b : String) : String :=
  match a with
  | some s => if s.toList.isEmpty then b else s
  | none => b

/-- The expression
`message.message?.conversation || message.message?.extendedTextMessage?.text || ''`. -/
def messageText (message : Option MessageContent) : String :=
  orElse (message.bind (fun c => c.conversation))
    (orElse ((message.bind (fun c => c.extendedTextMessage)).bind (fun e => e.text)) "")

/-- The expression `sender.split('@')[0]`. -/
def userPart (sender : String) : String :=
  String.mk (sender.toList.takeWhile (fun c => c != '@'))

/-- The query `GroupSettings.findOne({ groupId })`: the first matching document. -/
def findOne (env : Env) (store : List GroupSettings) (groupId : String) :
    Except Err (Option GroupSettings) :=
  match env.dbError with
  | some e => .error e
  | none => .ok (store.find? (fun d => d.groupId == groupId))

/-- The document `new GroupSettings({ groupId })`: `antiLink` takes the schema default. -/
def newGroupSettings (groupId : String) : GroupSettings :=
  { groupId := groupId, antiLink := true }

/-- The call `settings.save()` on a new document: an insert. -/
def save (env : Env) (store : List GroupSettings) (doc : GroupSettings) :
    Except Err (List GroupSettings) :=
  match env.dbError with
  | some e => .error e
  | none => .ok (store ++ [doc])

/-- The first document of the group gets `antiLink := value`; none matching, one
is inserted (`upsert: true`). -/
def upsertAntiLink (groupId : String) (value : Bool) : List GroupSettings → List GroupSettings
  | [] => [{ groupId := groupId, antiLink := value }]
  | d :: ds =>
    if d.groupId == groupId then { d with antiLink := value } :: ds
    else d :: upsertAntiLink groupId value ds

/-- The call
`GroupSettings.findOneAndUpdate({ groupId }, { $set: { antiLink } }, { upsert: true })`. -/
def findOneAndUpdate (env : Env) (store : List GroupSettings) (groupId : String)
    (value : Bool) : Except Err (List GroupSettings) :=
  match env.dbError with
  | some e => .error e
  | none => .ok (upsertAntiLink groupId value store)

/-- An awaited call on the socket: it is issued, then the backend accepts or rejects it. -/
def issue (env : Env) (st : State) (call : SocketCall) : Outcome :=
  let st1 : State := { st with calls := st.calls ++ [call] }
  match env.reject call with
  | some e => (.error e, st1)
  | none => (.ok (), st1)

/-- Truthiness of what `checkIfAdmin` returns: `undefined` (here `none`) is falsy. -/
def truthy (v : Option Bool) : Bool := v.getD false

/-- The body of `checkIfAdmin` once the metadata is there:
`participant && (participant.admin === 'admin' || participant.admin === 'superadmin')`. -/
def adminFlag (group : GroupMetadata) (sender : String) : Option Bool :=
  match group.participants.find? (fun p => p.id == sender) with
  | none => none
  | some p => some (p.admin == some "admin" || p.admin == some "superadmin")

/-- The function `checkIfAdmin(Bloom, sender, groupId)`: there is no `try`, so a failed
lookup rejects the returned promise. -/
def checkIfAdmin (env : Env) (sender groupId : String) : Except Err (Option Bool) :=
  match env.groupMetadata groupId with
  | .error e => .error e
  | .ok group => .ok (adminFlag group sender)

/-! ## The moderation pipeline -/

/-- The warning of the remediation sequence. -/
def warnCall (groupId sender : String) : SocketCall :=
  .sendMessage groupId
    (.text ("🚫 Link detected, removing @" ++ userPart sender) [sender])

/-- The deletion of the violating message. -/
def deleteCall (groupId : String) (key : MessageKey) : SocketCall :=
  .sendMessage groupId (.delete key)

/-- The removal of the sender. -/
def removeCall (groupId sender : String) : SocketCall :=
  .groupParticipantsUpdate groupId [sender] "remove"

/-- The three awaited calls of `handleIncomingMessages` inside `if (!isAdmin)`. -/
def remediate (env : Env) (st : State) (groupId sender : String) (key : MessageKey) :
    Outcome :=
  match issue env st (warnCall groupId sender) with
  | (.error e, st1) => (.error e, st1)
  | (.ok _, st1) =>
    match issue env st1 (deleteCall groupId key) with
    | (.error e, st2) => (.error e, st2)
    | (.ok _, st2) => issue env st2 (removeCall groupId sender)

/-- The step "fetch group settings" of `handleIncomingMessages`: `findOne`, and on
no result a new document that is saved. -/
def fetchGroupSettings (env : Env) (store : List GroupSettings) (groupId : String) :
    Except Err (GroupSettings × List GroupSettings) :=
  match findOne env store groupId with
  | .error e => .error e
  | .ok (some settings) => .ok (settings, store)
  | .ok none =>
    match save env store (newGroupSettings groupId) with
    | .error e => .error e
    | .ok store1 => .ok (newGroupSettings groupId, store1)

/-- The function `handleIncomingMessages(Bloom, message)`. -/
def handleIncomingMessages (env : Env) (st : State) (message : Option WAMessage) : Outcome :=
  match message with
  | none => (.ok (), st)
  | some msg =>
    if msg.message.isNone || msg.key.fromMe then (.ok (), st)
    else
      let groupId := msg.key.remoteJid
      if !isGroupJid groupId then (.ok (), st)
      else
        let sender := msg.key.participant
        let text := messageText msg.message
        match fetchGroupSettings env st.store groupId with
        | .error e => (.error e, st)
        | .ok (settings, store1) =>
          let st1 : State := { st with store := store1 }
          if settings.antiLink && linkRegexTest text then
            match checkIfAdmin env sender groupId with
            | .error e => (.error e, st1)
            | .ok isAdmin =>
              if !truthy isAdmin then remediate env st1 groupId sender msg.key
              else (.ok (), st1)
          else (.ok (), st1)

/-! ## The command router -/

/-- The method `String.prototype.toLowerCase` on one code point, for the code
points whose lower-case form is an ASCII character: the ASCII capitals and the
Kelvin sign U+212A. The lower-case form of any other code point contains a
non-ASCII character, as the code point itself does, so leaving it unchanged
does not alter a comparison with an ASCII literal. -/
def lowerChar (c : Char) : Char :=
  if c.toNat = 8490 then 'k' else c.toLower

/-- The call `text.toLowerCase()`, as far as a comparison with an ASCII literal sees it. -/
def toLowerCase (text : String) : String := String.mk (text.toList.map lowerChar)

/-- The confirmation sent after `!antilink on`. -/
def enabledCall (groupId : String) : SocketCall :=
  .sendMessage groupId (.text "✅ Anti-link has been *enabled*." [])

/-- The confirmation sent after `!antilink off`. -/
def disabledCall (groupId : String) : SocketCall :=
  .sendMessage groupId (.text "❌ Anti-link has been *disabled*." [])

/-- One of the two `if (text.toLowerCase() === command)` blocks of `handleCommands`. -/
def toggle (env : Env) (st : State) (groupId text command : String) (value : Bool)
    (confirmation : SocketCall) : Outcome :=
  if toLowerCase text == command then
    match findOneAndUpdate env st.store groupId value with
    | .error e => (.error e, st)
    | .ok store1 => issue env { st with store := store1 } confirmation
  else (.ok (), st)

/-- The function `handleCommands(Bloom, message)`. -/
def handleCommands (env : Env) (st : State) (msg : WAMessage) : Outcome :=
  let groupId := msg.key.remoteJid
  if !isGroupJid groupId then (.ok (), st)
  else
    let sender := msg.key.participant
    let text := messageText msg.message
    match checkIfAdmin env sender groupId with
    | .error e => (.error e, st)
    | .ok isAdmin =>
      if !truthy isAdmin then (.ok (), st)
      else
        match toggle env st groupId text "!antilink on" true (enabledCall groupId) with
        | (.error e, st1) => (.error e, st1)
        | (.ok _, st1) =>
          toggle env st1 groupId text "!antilink off" false (disabledCall groupId)

/-- The listener that `startBot` registers on `messages.upsert`; the argument is
`chatUpdate.messages`. -/
def onMessagesUpsert (env : Env) (st : State) (messages : Option (List WAMessage)) : Outcome :=
  match messages.bind List.head? with
  | none => (.ok (), st)
  | some msg =>
    if msg.message.isNone then (.ok (), st)
    else
      match handleIncomingMessages env st (some msg) with
      | (.error e, st1) => (.error e, st1)
      | (.ok _, st1) => handleCommands env st1 msg

/-- Messages handled one after the other, each under its own environment. -/
def handleAll (st : State) : List (Env × WAMessage) → State
  | [] => st
  | (env, msg) :: rest => handleAll (onMessagesUpsert env st (some [msg])).2 rest

/-- The value of `antiLink` that `findOne` finds for a group, if any. -/
def linkPolicy (store : List GroupSettings) (groupId : String) : Option Bool :=
  (store.find? (fun d => d.groupId == groupId)).map (fun d => d.antiLink)

/-- The condition of the pipeline for a remediation: links are disallowed for the
group (no document counts as the default `true`), `linkRegex` matches the text
and the sender's admin flag is falsy. -/
def violates (store : List GroupSettings) (group : GroupMetadata) (msg : WAMessage) : Bool :=
  (linkPolicy store msg.key.remoteJid).getD true
    && linkRegexTest (messageText msg.message)
    && !truthy (adminFlag group msg.key.participant)

/-- The remediation sequence for a message: warning, deletion, removal. -/
def remediation (msg : WAMessage) : List SocketCall :=
  [warnCall msg.key.remoteJid msg.key.participant, deleteCall msg.key.remoteJid msg.key,
    removeCall msg.key.remoteJid msg.key.participant]

/-- Specification wording: the sender is elevated, that is, the sender's entry
in the membership snapshot has the role admin or superadmin. The sender's entry
is the entry with the sender's id that no other entry with that id precedes;
a snapshot lists a member once, and then it is the only such entry. -/
def SpecElevated (group : GroupMetadata) (sender : String) : Prop :=
  ∃ (before : List GroupParticipant) (p : GroupParticipant) (after : List GroupParticipant),
    group.participants = before ++ p :: after ∧ (∀ q ∈ before, q.id ≠ sender) ∧
    p.id = sender ∧ (p.admin = some "admin" ∨ p.admin = some "superadmin")

/-! ## The connection supervisor -/

/-- The field `output` of the error of a disconnect. -/
structure ErrorOutput where
  statusCode : Option Int
  deriving DecidableEq

/-- The field `error` of `lastDisconnect`. -/
structure DisconnectError where
  output : Option ErrorOutput
  deriving DecidableEq

/-- The field `lastDisconnect` of a connection update. -/
structure LastDisconnect where
  error : Option DisconnectError
  deriving DecidableEq

/-- The argument of the `connection.update` listener. -/
structure ConnectionUpdate where
  connection : Option String
  lastDisconnect : Option LastDisconnect
  qr : Option String
  deriving DecidableEq

/-- What the `connection.update` listener does: it writes a line to the console
or it calls `authenticateBot()`. -/
inductive Effect where
  | log (line : String)
  | authenticateBot
  deriving DecidableEq

/-- The expression `lastDisconnect?.error?.output?.statusCode`. -/
def closeReason (update : ConnectionUpdate) : Option Int :=
  ((update.lastDisconnect.bind (fun d => d.error)).bind (fun e => e.output)).bind
    (fun o => o.statusCode)

/-- The listener on `connection.update` of `authenticateBot`. The constant
`DisconnectReason.loggedOut` of the library is the parameter `loggedOut`. -/
def onConnectionUpdate (loggedOut : Int) (update : ConnectionUpdate) : List Effect :=
  if update.connection = some "close" then
    if closeReason update ≠ some loggedOut then
      [.log "⚠️ Reconnecting...", .authenticateBot]
    else []
  else if update.connection = some "open" then
    [.log "✅ Bot is online"]
  else if update.connection = some "qr" then
    [.log "📱 Scan the QR code below to log in:", .log (update.qr.getD "undefined")]
  else []

/-- How many connection attempts a list of effects starts. -/
def attempts (effects : List Effect) : Nat := effects.count .authenticateBot

/-- The events a listener can be registered on. -/
inductive EventName where
  | connectionUpdate
  | credsUpdate
  | messagesUpsert
  deriving DecidableEq

/-- A socket made by `makeWASocket`, with the events that have a listener. -/
structure Socket where
  listeners : List EventName
  deriving DecidableEq

/-- The sockets made so far, oldest first. The last one carries the live session:
a socket is made only at start and after the previous one closed. -/
structure Bot where
  sockets : List Socket
  deriving DecidableEq

/-- The function `authenticateBot()`: a new socket with listeners on
`connection.update` and `creds.update`; the result is its index. -/
def authenticateBot (bot : Bot) : Bot × Nat :=
  ({ sockets := bot.sockets ++ [{ listeners := [.connectionUpdate, .credsUpdate] }] },
    bot.sockets.length)

/-- The call `Bloom.ev.on(event, listener)` on the socket with index `i`. -/
def registerListener (bot : Bot) (i : Nat) (event : EventName) : Bot :=
  { sockets := bot.sockets.modify (fun s => { listeners := s.listeners ++ [event] }) i }

/-- The function `startBot()`, from a process without sockets: it awaits
`authenticateBot()` and registers the `messages.upsert` listener on the socket
returned. -/
def startBot : Bot :=
  let r := authenticateBot { sockets := [] }
  registerListener r.1 r.2 .messagesUpsert

/-- The effects of a listener are carried out; the result of the call
`authenticateBot()` of the listener is dropped. -/
def runEffects (bot : Bot) : List Effect → Bot
  | [] => bot
  | .log _ :: rest => runEffects bot rest
  | .authenticateBot :: rest => runEffects (authenticateBot bot).1 rest

/-- Whether the socket with index `i` has a listener on the event. -/
def hasListener (bot : Bot) (i : Nat) (event : EventName) : Bool :=
  match bot.sockets.get? i with
  | some s => s.listeners.contains event
  | none => false

/-- A `connection.update` event emitted by the socket with index `i`. -/
def emitConnectionUpdate (loggedOut : Int) (bot : Bot) (i : Nat) (update : ConnectionUpdate) :
    Bot :=
  if hasListener bot i .connectionUpdate then runEffects bot (onConnectionUpdate loggedOut update)
  else bot

/-- A `messages.upsert` event emitted by the socket with index `i`. -/
def emitMessagesUpsert (env : Env) (bot : Bot) (st : State) (i : Nat)
    (messages : Option (List WAMessage)) : Outcome :=
  if hasListener bot i .messagesUpsert then onMessagesUpsert env st messages
  else (.ok (), st)

/-- The index of the socket that carries the live session. -/
def liveSocket (bot : Bot) : Nat := bot.sockets.length - 1

/-- The live session drops `n` times with the given reason, each drop reported
by the socket that was live. -/
def dropAndReconnect (loggedOut : Int) (update : ConnectionUpdate) : Nat → Bot → Bot
  | 0, bot => bot
  | n + 1, bot =>
    dropAndReconnect loggedOut update n (emitConnectionUpdate loggedOut bot (liveSocket bot) update)

/-! ## The get-or-create step, one database operation at a time -/

/-- Where one run of the "fetch group settings" step stands: before `findOne`,
between the answer of `findOne` and what follows, or finished with `settings`. -/
inductive FetchPc where
  | start
  | found (result : Option GroupSettings)
  | done (settings : GroupSettings)
  deriving DecidableEq

/-- One run moves by one database operation (the database is reachable). -/
def fetchStep (groupId : String) (store : List GroupSettings) :
    FetchPc → List GroupSettings × FetchPc
  | .start => (store, .found (store.find? (fun d => d.groupId == groupId)))
  | .found (some settings) => (store, .done settings)
  | .found none => (store ++ [newGroupSettings groupId], .done (newGroupSettings groupId))
  | .done settings => (store, .done settings)

/-- Several runs for the same group; the schedule names the run that moves next. -/
def runSchedule (groupId : String) :
    List Nat → List GroupSettings × List FetchPc → List GroupSettings × List FetchPc
  | [], cfg => cfg
  | i :: rest, (store, pcs) =>
    match pcs.get? i with
    | none => runSchedule groupId rest (store, pcs)
    | some pc =>
      let r := fetchStep groupId store pc
      runSchedule groupId rest (r.1, pcs.set i r.2)

/-- The number of documents of a group in the collection. -/
def recordCount (store : List GroupSettings) (groupId : String) : Nat :=
  store.countP (fun d => d.groupId == groupId)

/-! ## Sample inputs -/

/-- A group with one admin and one plain member. -/
def sampleGroup : GroupMetadata :=
  { participants :=
      [{ id := "owner@s.whatsapp.net", admin := some "superadmin" },
       { id := "guest@s.whatsapp.net", admin := none }] }

/-- Every lookup succeeds and every call is accepted. -/
def calmEnv : Env :=
  { groupMetadata := fun _ => .ok sampleGroup, reject := fun _ => none, dbError := none }

/-- A group message with the given sender and text. -/
def sampleMessage (sender text : String) : WAMessage :=
  { key := { remoteJid := "120363@g.us", fromMe := false, id := "3EB0", participant := sender },
    message := some { conversation := some text, extendedTextMessage := none } }

/-- A link posted by the plain member. -/
def linkMessage : WAMessage := sampleMessage "guest@s.whatsapp.net" "check http://evil.example"

/-- The state of a fresh process: no settings, no calls. -/
def freshState : State := { store := [], calls := [] }

/-- The backend rejects the deletion of `linkMessage` and accepts every other call. -/
def noDeleteEnv : Env :=
  { calmEnv with
    reject := fun call =>
      if call = deleteCall "120363@g.us" linkMessage.key then some "forbidden" else none }

/-- The backend rejects every text message and accepts every other call. -/
def noTextEnv : Env :=
  { calmEnv with
    reject := fun call =>
      match call with
      | .sendMessage _ (.text _ _) => some "rate-overlimit"
      | _ => none }

/-- The membership lookup fails. -/
def noMetadataEnv : Env :=
  { calmEnv with groupMetadata := fun _ => .error "timed out" }

/-- A connection update that reports a close with the given status code. -/
def closeUpdate (statusCode : Option Int) : ConnectionUpdate :=
  { connection := some "close",
    lastDisconnect := some { error := some { output := some { statusCode := statusCode } } },
    qr := none }
/-! ## The matcher decides the denoted language -/

namespace RE

theorem nullable_iff (r : RE) : nullable r = true ↔ lang r [] := by
  induction r with
  | empty => simp [nullable, lang]
  | eps => simp [nullable, lang]
  | cls p => simp [nullable, lang]
  | seq a b iha ihb =>
    simp only [nullable, lang, Bool.and_eq_true, iha, ihb]
    constructor
    · rintro ⟨h1, h2⟩; exact ⟨[], [], rfl, h1, h2⟩
    · rintro ⟨u, v, h, h1, h2⟩
      obtain ⟨hu, hv⟩ := List.append_eq_nil.mp h.symm
      subst hu; subst hv; exact ⟨h1, h2⟩
  | alt a b iha ihb => simp [nullable, lang, iha, ihb]
  | star a _ => simp only [nullable, lang, true_iff]; exact ⟨[], rfl, by simp⟩

theorem lang_star_cons (a : RE) (c : Char) (s : List Char) :
    lang (star a) (c :: s) ↔ ∃ u v, s = u ++ v ∧ lang a (c :: u) ∧ lang (star a) v := by
  constructor
  · rintro ⟨L, hL, hall⟩
    induction L with
    | nil => simp at hL
    | cons x L ih =>
      cases x with
      | nil =>
        apply ih
        · simpa using hL
        · intro y hy; exact hall y (List.mem_cons_of_mem _ hy)
      | cons d u =>
        simp only [List.flatten_cons, List.cons_append, List.cons.injEq] at hL
        obtain ⟨hd, hs⟩ := hL
        subst hd
        refine ⟨u, L.flatten, hs, hall _ (List.mem_cons_self _ _), L, rfl, ?_⟩
        intro y hy; exact hall y (List.mem_cons_of_mem _ hy)
  · rintro ⟨u, v, hs, hu, L, hv, hall⟩
    refine ⟨(c :: u) :: L, by simp [hs, hv], ?_⟩
    intro y hy
    rcases List.mem_cons.mp hy with h | h
    · subst h; exact hu
    · exact hall y h

theorem lang_deriv (r : RE) (c : Char) : ∀ s, lang (deriv r c) s ↔ lang r (c :: s) := by
  induction r with
  | empty => intro s; simp [deriv, lang]
  | eps => intro s; simp [deriv, lang]
  | cls p =>
    intro s
    by_cases h : p c = true
    · simp only [deriv, h, if_true, lang]
      constructor
      · rintro rfl; exact ⟨c, rfl, h⟩
      · rintro ⟨d, hd, _⟩; simp at hd; exact hd.2
    · simp only [deriv, h, lang, false_iff]
      rintro ⟨d, hd, hp⟩
      simp at hd
      rw [← hd.1] at hp; exact h hp
  | seq a b iha ihb =>
    intro s
    have key : lang (seq a b) (c :: s) ↔
        (∃ u v, s = u ++ v ∧ lang a (c :: u) ∧ lang b v) ∨ (lang a [] ∧ lang b (c :: s)) := by
      constructor
      · rintro ⟨u, v, h, hu, hv⟩
        cases u with
        | nil => right; simp at h; subst h; exact ⟨hu, hv⟩
        | cons d u =>
          simp only [List.cons_append, List.cons.injEq] at h
          obtain ⟨hd, hs⟩ := h
          subst hd
          left; exact ⟨u, v, hs, hu, hv⟩
      · rintro (⟨u, v, h, hu, hv⟩ | ⟨hu, hv⟩)
        · exact ⟨c :: u, v, by simp [h], hu, hv⟩
        · exact ⟨[], c :: s, rfl, hu, hv⟩
    rw [key]
    by_cases hn : nullable a = true
    · simp only [deriv, hn, if_true, lang, iha, ihb, (nullable_iff a).mp hn, true_and]
    · have hn2 : ¬ lang a [] := fun h => hn ((nullable_iff a).mpr h)
      simp only [deriv, hn, lang, iha, hn2, false_and, or_false]
  | alt a b iha ihb => intro s; simp only [deriv, lang, iha, ihb]
  | star a iha =>
    intro s
    rw [lang_star_cons]
    show (∃ u v, s = u ++ v ∧ lang (deriv a c) u ∧ lang (star a) v) ↔ _
    simp only [iha]

theorem matchAt_iff : ∀ (s : List Char) (r : RE),
    matchAt r s = true ↔ ∃ u v, s = u ++ v ∧ lang r u := by
  intro s
  induction s with
  | nil =>
    intro r
    simp only [matchAt, nullable_iff]
    constructor
    · intro h; exact ⟨[], [], rfl, h⟩
    · rintro ⟨u, v, h, hu⟩
      obtain ⟨hu0, _⟩ := List.append_eq_nil.mp h.symm
      subst hu0; exact hu
  | cons c s ih =>
    intro r
    simp only [matchAt, Bool.or_eq_true, nullable_iff, ih]
    constructor
    · rintro (h | ⟨u, v, h, hu⟩)
      · exact ⟨[], c :: s, rfl, h⟩
      · exact ⟨c :: u, v, by simp [h], (lang_deriv r c u).mp hu⟩
    · rintro ⟨u, v, h, hu⟩
      cases u with
      | nil => left; exact hu
      | cons d u =>
        simp only [List.cons_append, List.cons.injEq] at h
        obtain ⟨hd, hs⟩ := h
        subst hd
        right; exact ⟨u, v, hs, (lang_deriv r c u).mpr hu⟩

theorem search_iff (r : RE) : ∀ s : List Char,
    search r s = true ↔ ∃ p u v, s = p ++ u ++ v ∧ lang r u := by
  intro s
  induction s with
  | nil =>
    simp only [search, matchAt_iff]
    constructor
    · rintro ⟨u, v, h, hu⟩; exact ⟨[], u, v, by simpa using h, hu⟩
    · rintro ⟨p, u, v, h, hu⟩
      obtain ⟨hpu, _⟩ := List.append_eq_nil.mp h.symm
      obtain ⟨hp, hu0⟩ := List.append_eq_nil.mp hpu
      subst hp; subst hu0
      exact ⟨[], [], rfl, hu⟩
  | cons c s ih =>
    simp only [search, Bool.or_eq_true, matchAt_iff, ih]
    constructor
    · rintro (⟨u, v, h, hu⟩ | ⟨p, u, v, h, hu⟩)
      · exact ⟨[], u, v, by simpa using h, hu⟩
      · exact ⟨c :: p, u, v, by simp [h], hu⟩
    · rintro ⟨p, u, v, h, hu⟩
      cases p with
      | nil => left; exact ⟨u, v, by simpa using h, hu⟩
      | cons d p =>
        simp only [List.cons_append, List.cons.injEq] at h
        right; exact ⟨p, u, v, h.2, hu⟩

end RE

/-! ## Character classes -/

theorem toNat_ofNat_of_lt (n : Nat) (h : n < 55296) : (Char.ofNat n).toNat = n := by
  have hv : n.isValidChar := Or.inl h
  simp only [Char.ofNat, hv, dite_true]
  rfl

theorem toNat_inj {x y : Char} : x.toNat = y.toNat ↔ x = y := by
  constructor
  · intro h
    have : Char.ofNat x.toNat = Char.ofNat y.toNat := by rw [h]
    simpa using this
  · rintro rfl; rfl

theorem char_le_iff (x y : Char) : x ≤ y ↔ x.toNat ≤ y.toNat := Iff.rfl

theorem uval_le_iff (x : Char) (y : UInt32) : x.val ≤ y ↔ x.toNat ≤ y.toNat := Iff.rfl

theorem uval_ge_iff (x : Char) (y : UInt32) : x.val ≥ y ↔ y.toNat ≤ x.toNat := Iff.rfl

theorem toNat_toUpper (x : Char) :
    x.toUpper.toNat = if 97 ≤ x.toNat ∧ x.toNat ≤ 122 then x.toNat - 32 else x.toNat := by
  unfold Char.toUpper
  simp only [ge_iff_le]
  split
  · exact toNat_ofNat_of_lt _ (by omega)
  · rfl

theorem toNat_toLower (x : Char) :
    x.toLower.toNat = if 65 ≤ x.toNat ∧ x.toNat ≤ 90 then x.toNat + 32 else x.toNat := by
  unfold Char.toLower
  simp only [ge_iff_le]
  split
  · exact toNat_ofNat_of_lt _ (by omega)
  · rfl

/-- Comparison after `canonicalize` is comparison up to the case of ASCII letters. -/
theorem canonicalize_eq_iff (x c : Char) :
    canonicalize x = canonicalize c ↔ x.toLower = c.toLower := by
  unfold canonicalize
  rw [← toNat_inj, ← toNat_inj, toNat_toUpper, toNat_toUpper, toNat_toLower, toNat_toLower]
  split <;> split <;> split <;> split <;> omega

theorem toLower_eq_dot (x : Char) : x.toLower = '.' ↔ x = '.' := by
  rw [← toNat_inj, ← toNat_inj, toNat_toLower]
  have : ('.' : Char).toNat = 46 := rfl
  rw [this]
  split <;> omega

theorem labelChar_iff (c : Char) : labelChar c = true ↔ (c.isAlphanum = true ∨ c = '-') := by
  have h1 : ('a' : Char).toNat = 97 := rfl
  have h2 : ('z' : Char).toNat = 122 := rfl
  have h3 : ('A' : Char).toNat = 65 := rfl
  have h4 : ('Z' : Char).toNat = 90 := rfl
  have h5 : ('0' : Char).toNat = 48 := rfl
  have h6 : ('9' : Char).toNat = 57 := rfl
  have h7 : ('-' : Char).toNat = 45 := rfl
  have e1 : (97 : UInt32).toNat = 97 := rfl
  have e2 : (122 : UInt32).toNat = 122 := rfl
  have e3 : (65 : UInt32).toNat = 65 := rfl
  have e4 : (90 : UInt32).toNat = 90 := rfl
  have e5 : (48 : UInt32).toNat = 48 := rfl
  have e6 : (57 : UInt32).toNat = 57 := rfl
  have hdash : c = '-' ↔ c.toNat = 45 := by rw [← toNat_inj, h7]
  simp only [labelChar, Char.isAlphanum, Char.isAlpha, Char.isUpper, Char.isLower, Char.isDigit,
    Bool.or_eq_true, Bool.and_eq_true, decide_eq_true_eq, beq_iff_eq, char_le_iff, uval_le_iff,
    uval_ge_iff, hdash, h1, h2, h3, h4, h5, h6, e1, e2, e3, e4, e5, e6]
  omega

theorem asciiLetter_iff (c : Char) : asciiLetter c = true ↔ c.isAlpha = true := by
  have h1 : ('a' : Char).toNat = 97 := rfl
  have h2 : ('z' : Char).toNat = 122 := rfl
  have h3 : ('A' : Char).toNat = 65 := rfl
  have h4 : ('Z' : Char).toNat = 90 := rfl
  have e1 : (97 : UInt32).toNat = 97 := rfl
  have e2 : (122 : UInt32).toNat = 122 := rfl
  have e3 : (65 : UInt32).toNat = 65 := rfl
  have e4 : (90 : UInt32).toNat = 90 := rfl
  simp only [asciiLetter, Char.isAlpha, Char.isUpper, Char.isLower,
    Bool.or_eq_true, Bool.and_eq_true, decide_eq_true_eq, char_le_iff, uval_le_iff,
    uval_ge_iff, h1, h2, h3, h4, e1, e2, e3, e4]
  omega


/-! ## The language of `linkRegex` -/

theorem lang_seq (a b : RE) (s : List Char) :
    RE.lang (RE.seq a b) s ↔ ∃ u v, s = u ++ v ∧ RE.lang a u ∧ RE.lang b v := Iff.rfl

theorem lang_alt (a b : RE) (s : List Char) :
    RE.lang (RE.alt a b) s ↔ RE.lang a s ∨ RE.lang b s := Iff.rfl

theorem lang_eps (s : List Char) : RE.lang RE.eps s ↔ s = [] := Iff.rfl

theorem lang_ci (c : Char) (s : List Char) :
    RE.lang (ci c) s ↔ ∃ x, s = [x] ∧ x.toLower = c.toLower := by
  simp only [ci, RE.lang, beq_iff_eq, canonicalize_eq_iff]

theorem lang_ciLit : ∀ (cs s : List Char),
    RE.lang (ciLit cs) s ↔ s.map Char.toLower = cs.map Char.toLower := by
  intro cs
  induction cs with
  | nil => intro s; simp [ciLit, RE.lang]
  | cons c cs ih =>
    intro s
    simp only [ciLit, RE.lang, ih, beq_iff_eq, canonicalize_eq_iff, List.map_cons]
    constructor
    · rintro ⟨u, v, rfl, ⟨x, rfl, hx⟩, hv⟩
      simp [hx, hv]
    · intro h
      cases s with
      | nil => simp at h
      | cons x s =>
        simp only [List.map_cons, List.cons.injEq] at h
        exact ⟨[x], s, rfl, ⟨x, rfl, h.1⟩, h.2⟩

theorem flatten_map_singleton (s : List Char) : (s.map (fun c => [c])).flatten = s := by
  induction s with
  | nil => rfl
  | cons c s ih => simp [ih]

theorem lang_star_cls (p : Char → Bool) (s : List Char) :
    RE.lang (RE.star (RE.cls p)) s ↔ ∀ c ∈ s, p c = true := by
  simp only [RE.lang]
  constructor
  · rintro ⟨L, rfl, hL⟩ c hc
    obtain ⟨x, hx, hcx⟩ := List.mem_flatten.mp hc
    obtain ⟨d, rfl, hd⟩ := hL x hx
    simp at hcx
    subst hcx; exact hd
  · intro h
    refine ⟨s.map (fun c => [c]), (flatten_map_singleton s).symm, ?_⟩
    intro x hx
    obtain ⟨c, hc, rfl⟩ := List.mem_map.mp hx
    exact ⟨c, rfl, h c hc⟩

theorem lang_plus_cls (p : Char → Bool) (s : List Char) :
    RE.lang (RE.plus (RE.cls p)) s ↔ s ≠ [] ∧ ∀ c ∈ s, p c = true := by
  unfold RE.plus
  have hstar := lang_star_cls p
  simp only [RE.lang] at hstar ⊢
  constructor
  · rintro ⟨u, v, rfl, ⟨c, rfl, hc⟩, hv⟩
    refine ⟨by simp, ?_⟩
    intro d hd
    simp only [List.singleton_append, List.mem_cons] at hd
    rcases hd with rfl | hd
    · exact hc
    · exact (hstar v).mp hv d hd
  · rintro ⟨hne, h⟩
    cases s with
    | nil => exact absurd rfl hne
    | cons c s =>
      refine ⟨[c], s, rfl, ⟨c, rfl, h c (List.mem_cons_self _ _)⟩, (hstar s).mpr ?_⟩
      intro d hd; exact h d (List.mem_cons_of_mem _ hd)

theorem lang_schemeRegex (u : List Char) :
    RE.lang schemeRegex u ↔
      (u.map Char.toLower = "http://".toList ∨ u.map Char.toLower = "https://".toList ∨
        u.map Char.toLower = "www.".toList) := by
  have e1 : "http://".toList = ['h', 't', 't', 'p', ':', '/', '/'] := rfl
  have e2 : "https://".toList = ['h', 't', 't', 'p', 's', ':', '/', '/'] := rfl
  have e3 : "www.".toList = ['w', 'w', 'w', '.'] := rfl
  have l1 : ['h', 't', 't', 'p'].map Char.toLower = ['h', 't', 't', 'p'] := rfl
  have l2 : [':', '/', '/'].map Char.toLower = [':', '/', '/'] := rfl
  have l3 : ['w', 'w', 'w', '.'].map Char.toLower = ['w', 'w', 'w', '.'] := rfl
  have l4 : ('s' : Char).toLower = 's' := rfl
  rw [e1, e2, e3]
  unfold schemeRegex RE.opt
  simp only [lang_seq, lang_alt, lang_eps, lang_ciLit, lang_ci, l1, l2, l3, l4]
  constructor
  · rintro (⟨a, r, rfl, ha, b, c, rfl, hb, hc⟩ | h)
    · rcases hb with ⟨x, rfl, hx⟩ | rfl
      · right; left; simp [ha, hc, hx]
      · left; simp [ha, hc]
    · right; right; exact h
  · rintro (h | h | h)
    · left
      simp only [List.map_eq_cons_iff, List.map_eq_nil_iff] at h
      obtain ⟨x1, _, rfl, h1, x2, _, rfl, h2, x3, _, rfl, h3, x4, _, rfl, h4, x5, _, rfl, h5,
        x6, _, rfl, h6, x7, _, rfl, h7, rfl⟩ := h
      exact ⟨[x1, x2, x3, x4], [x5, x6, x7], rfl, by simp [h1, h2, h3, h4],
        [], [x5, x6, x7], rfl, Or.inr rfl, by simp [h5, h6, h7]⟩
    · left
      simp only [List.map_eq_cons_iff, List.map_eq_nil_iff] at h
      obtain ⟨x1, _, rfl, h1, x2, _, rfl, h2, x3, _, rfl, h3, x4, _, rfl, h4, x5, _, rfl, h5,
        x6, _, rfl, h6, x7, _, rfl, h7, x8, _, rfl, h8, rfl⟩ := h
      exact ⟨[x1, x2, x3, x4], [x5, x6, x7, x8], rfl, by simp [h1, h2, h3, h4],
        [x5], [x6, x7, x8], rfl, Or.inl ⟨x5, rfl, h5⟩, by simp [h6, h7, h8]⟩
    · right; exact h

theorem prefixedRegex_eq : prefixedRegex = RE.seq schemeRegex (RE.plus (RE.cls notSpace)) := rfl

theorem notSpace_iff (c : Char) : notSpace c = true ↔ SpecNonSpace c := by
  simp [notSpace, SpecNonSpace]

theorem lang_prefixed_of_spec (m : List Char) (h : SpecPrefixedLink m) :
    RE.lang prefixedRegex m := by
  obtain ⟨scheme, c, rfl, hc, hs⟩ := h
  rw [prefixedRegex_eq]
  refine ⟨scheme, [c], rfl, (lang_schemeRegex scheme).mpr hs, (lang_plus_cls _ _).mpr ?_⟩
  refine ⟨by simp, ?_⟩
  intro d hd
  simp only [List.mem_singleton] at hd
  subst hd
  exact (notSpace_iff d).mpr hc

theorem spec_of_lang_prefixed (m : List Char) (h : RE.lang prefixedRegex m) :
    ∃ m1 q, m = m1 ++ q ∧ SpecPrefixedLink m1 := by
  rw [prefixedRegex_eq] at h
  obtain ⟨u, v, rfl, hu, hv⟩ := h
  obtain ⟨hne, hall⟩ := (lang_plus_cls _ _).mp hv
  cases v with
  | nil => exact absurd rfl hne
  | cons c v =>
    refine ⟨u ++ [c], v, by simp, u, c, rfl, ?_, (lang_schemeRegex u).mp hu⟩
    exact (notSpace_iff c).mp (hall c (List.mem_cons_self _ _))


theorem lang_plus (a : RE) (s : List Char) :
    RE.lang (RE.plus a) s ↔
      ∃ L : List (List Char), L ≠ [] ∧ s = L.flatten ∧ ∀ x ∈ L, RE.lang a x := by
  unfold RE.plus
  simp only [RE.lang]
  constructor
  · rintro ⟨u, v, rfl, hu, L, rfl, hL⟩
    refine ⟨u :: L, by simp, by simp, ?_⟩
    intro x hx
    rcases List.mem_cons.mp hx with rfl | hx
    · exact hu
    · exact hL x hx
  · rintro ⟨L, hne, rfl, hL⟩
    cases L with
    | nil => exact absurd rfl hne
    | cons u L =>
      exact ⟨u, L.flatten, by simp, hL u (List.mem_cons_self _ _), L, rfl,
        fun x hx => hL x (List.mem_cons_of_mem _ hx)⟩

theorem lang_atLeastTwo_cls (p : Char → Bool) (s : List Char) :
    RE.lang (RE.atLeastTwo (RE.cls p)) s ↔ 2 ≤ s.length ∧ ∀ c ∈ s, p c = true := by
  unfold RE.atLeastTwo
  have hstar := lang_star_cls p
  simp only [lang_seq]
  constructor
  · rintro ⟨u, v, rfl, ⟨c, rfl, hc⟩, w, z, rfl, ⟨d, rfl, hd⟩, hz⟩
    refine ⟨by simp, ?_⟩
    intro e he
    simp only [List.singleton_append, List.mem_cons] at he
    rcases he with rfl | rfl | he
    · exact hc
    · exact hd
    · exact (hstar z).mp hz e he
  · rintro ⟨hlen, h⟩
    match s, hlen, h with
    | c :: d :: z, _, h =>
      refine ⟨[c], d :: z, rfl, ⟨c, rfl, h c (by simp)⟩, [d], z, rfl, ⟨d, rfl, h d (by simp)⟩,
        (hstar z).mpr ?_⟩
      intro e he
      exact h e (by simp [he])

theorem lang_labelDot (x : List Char) :
    RE.lang labelDotRegex x ↔ ∃ l, SpecLabel l ∧ x = l ++ ['.'] := by
  have hd : ('.' : Char).toLower = '.' := rfl
  unfold labelDotRegex SpecLabel
  simp only [lang_seq, lang_plus_cls, lang_ci, hd, toLower_eq_dot, labelChar_iff]
  constructor
  · rintro ⟨u, v, rfl, hu, c, rfl, rfl⟩
    exact ⟨u, hu, rfl⟩
  · rintro ⟨l, hl, rfl⟩
    exact ⟨l, ['.'], rfl, hl, '.', rfl, rfl⟩

theorem exists_labels : ∀ L : List (List Char),
    (∀ x ∈ L, ∃ l, SpecLabel l ∧ x = l ++ ['.']) →
      ∃ labels : List (List Char),
        (∀ l ∈ labels, SpecLabel l) ∧ L = labels.map (fun l => l ++ ['.']) := by
  intro L
  induction L with
  | nil => intro _; exact ⟨[], by simp, rfl⟩
  | cons x L ih =>
    intro h
    obtain ⟨l, hl, rfl⟩ := h x (List.mem_cons_self _ _)
    obtain ⟨labels, hlab, rfl⟩ := ih (fun y hy => h y (List.mem_cons_of_mem _ hy))
    refine ⟨l :: labels, ?_, by simp⟩
    intro k hk
    rcases List.mem_cons.mp hk with rfl | hk
    · exact hl
    · exact hlab k hk

theorem lang_dotted (s : List Char) :
    RE.lang (RE.plus labelDotRegex) s ↔
      ∃ labels : List (List Char), labels ≠ [] ∧ (∀ l ∈ labels, SpecLabel l) ∧
        s = (labels.map (fun l => l ++ ['.'])).flatten := by
  rw [lang_plus]
  constructor
  · rintro ⟨L, hne, rfl, hL⟩
    obtain ⟨labels, hlab, rfl⟩ := exists_labels L (fun x hx => (lang_labelDot x).mp (hL x hx))
    refine ⟨labels, ?_, hlab, rfl⟩
    intro h; subst h; exact hne rfl
  · rintro ⟨labels, hne, hlab, rfl⟩
    refine ⟨labels.map (fun l => l ++ ['.']), by simpa using hne, rfl, ?_⟩
    intro x hx
    obtain ⟨l, hl, rfl⟩ := List.mem_map.mp hx
    exact (lang_labelDot _).mpr ⟨l, hlab l hl, rfl⟩

theorem lang_domain_of_spec (m : List Char) (h : SpecBareDomain m) :
    RE.lang domainRegex m := by
  obtain ⟨labels, tld, hne, hlab, hlen, htld, rfl⟩ := h
  unfold domainRegex
  refine ⟨_, tld, rfl, (lang_dotted _).mpr ⟨labels, hne, hlab, rfl⟩, tld, [], by simp, ?_,
    Or.inr rfl⟩
  exact (lang_atLeastTwo_cls _ _).mpr ⟨hlen, fun c hc => (asciiLetter_iff c).mpr (htld c hc)⟩

theorem spec_of_lang_domain (m : List Char) (h : RE.lang domainRegex m) :
    ∃ m1 q, m = m1 ++ q ∧ SpecBareDomain m1 := by
  unfold domainRegex at h
  obtain ⟨u, v, rfl, hu, tld, path, rfl, htld, _⟩ := h
  obtain ⟨labels, hne, hlab, rfl⟩ := (lang_dotted u).mp hu
  obtain ⟨hlen, hall⟩ := (lang_atLeastTwo_cls _ _).mp htld
  exact ⟨_, path, by simp, labels, tld, hne, hlab, hlen,
    fun c hc => (asciiLetter_iff c).mp (hall c hc), rfl⟩

/-- The regular-expression test and the specification's wording agree on every text. -/
theorem linkRegexTest_iff_spec (text : String) :
    linkRegexTest text = true ↔ SpecContainsLink text := by
  unfold linkRegexTest SpecContainsLink
  rw [RE.search_iff]
  constructor
  · rintro ⟨p, u, v, h, hu | hu⟩
    · obtain ⟨m1, q, rfl, hm⟩ := spec_of_lang_prefixed u hu
      exact ⟨p, m1, q ++ v, by rw [h]; simp only [List.append_assoc], Or.inl hm⟩
    · obtain ⟨m1, q, rfl, hm⟩ := spec_of_lang_domain u hu
      exact ⟨p, m1, q ++ v, by rw [h]; simp only [List.append_assoc], Or.inr hm⟩
  · rintro ⟨p, m, q, h, hm | hm⟩
    · exact ⟨p, m, q, h, Or.inl (lang_prefixed_of_spec m hm)⟩
    · exact ⟨p, m, q, h, Or.inr (lang_domain_of_spec m hm)⟩


/-! ## The moderation pipeline -/

theorem issue_calls (env : Env) (st : State) (call : SocketCall) :
    (issue env st call).2 = { st with calls := st.calls ++ [call] } := by
  unfold issue
  cases env.reject call <;> rfl

theorem issue_ok (env : Env) (st : State) (call : SocketCall) (h : env.reject call = none) :
    issue env st call = (.ok (), { st with calls := st.calls ++ [call] }) := by
  unfold issue
  rw [h]

theorem issue_error (env : Env) (st : State) (call : SocketCall) (e : Err)
    (h : env.reject call = some e) :
    issue env st call = (.error e, { st with calls := st.calls ++ [call] }) := by
  unfold issue
  rw [h]

theorem remediate_accepted (env : Env) (st : State) (groupId sender : String) (key : MessageKey)
    (h1 : env.reject (warnCall groupId sender) = none)
    (h2 : env.reject (deleteCall groupId key) = none)
    (h3 : env.reject (removeCall groupId sender) = none) :
    remediate env st groupId sender key =
      (.ok (), { st with calls := st.calls ++
        [warnCall groupId sender, deleteCall groupId key, removeCall groupId sender] }) := by
  unfold remediate
  rw [issue_ok env st _ h1]
  simp only
  rw [issue_ok env _ _ h2]
  simp only
  rw [issue_ok env _ _ h3]
  simp

theorem remediate_store (env : Env) (st : State) (store : List GroupSettings)
    (groupId sender : String) (key : MessageKey) :
    (remediate env { st with store := store } groupId sender key).2.calls =
      (remediate env st groupId sender key).2.calls := by
  unfold remediate issue
  cases env.reject (warnCall groupId sender) <;> simp only
  cases env.reject (deleteCall groupId key) <;> simp only
  cases env.reject (removeCall groupId sender) <;> simp only

theorem fetchGroupSettings_ok (env : Env) (store : List GroupSettings) (groupId : String)
    (hdb : env.dbError = none) :
    fetchGroupSettings env store groupId =
      match store.find? (fun d => d.groupId == groupId) with
      | some settings => .ok (settings, store)
      | none => .ok (newGroupSettings groupId, store ++ [newGroupSettings groupId]) := by
  unfold fetchGroupSettings findOne save
  rw [hdb]
  cases store.find? (fun d => d.groupId == groupId) <;> rfl

theorem fetchGroupSettings_policy (env : Env) (store store1 : List GroupSettings)
    (groupId : String) (settings : GroupSettings)
    (h : fetchGroupSettings env store groupId = .ok (settings, store1)) :
    settings.antiLink = (linkPolicy store groupId).getD true := by
  unfold fetchGroupSettings findOne save at h
  unfold linkPolicy
  cases hdb : env.dbError with
  | some e => rw [hdb] at h; simp at h
  | none =>
    rw [hdb] at h
    cases hf : store.find? (fun d => d.groupId == groupId) with
    | none =>
      rw [hf] at h
      simp only [Except.ok.injEq, Prod.mk.injEq] at h
      rw [← h.1]; rfl
    | some d =>
      rw [hf] at h
      simp only [Except.ok.injEq, Prod.mk.injEq] at h
      rw [← h.1]; rfl

/-- The pipeline on an admitted message when the database and the membership
lookup answer: the calls it adds are those of one run of `remediate`, or none. -/
theorem handleIncomingMessages_calls (env : Env) (st : State) (msg : WAMessage)
    (content : MessageContent) (group : GroupMetadata)
    (hmsg : msg.message = some content) (hself : msg.key.fromMe = false)
    (hjid : isGroupJid msg.key.remoteJid = true) (hdb : env.dbError = none)
    (hmeta : env.groupMetadata msg.key.remoteJid = .ok group) :
    (handleIncomingMessages env st (some msg)).2.calls =
      if ((linkPolicy st.store msg.key.remoteJid).getD true
          && linkRegexTest (messageText msg.message)
          && !truthy (adminFlag group msg.key.participant)) = true
      then (remediate env st msg.key.remoteJid msg.key.participant msg.key).2.calls
      else st.calls := by
  unfold handleIncomingMessages
  simp only [hmsg, hself, hjid, Option.isNone_some, Bool.or_self, Bool.false_eq_true, if_false,
    Bool.not_true]
  cases hf : fetchGroupSettings env st.store msg.key.remoteJid with
  | error e =>
    rw [fetchGroupSettings_ok env _ _ hdb] at hf
    cases hfind : st.store.find? (fun d => d.groupId == msg.key.remoteJid) <;>
      rw [hfind] at hf <;> simp at hf
  | ok r =>
    obtain ⟨settings, store1⟩ := r
    have hpol := fetchGroupSettings_policy env _ _ _ _ hf
    simp only [checkIfAdmin, hmeta, ← hpol]
    cases h1 : settings.antiLink <;> cases h2 : linkRegexTest (messageText (some content)) <;>
      cases h3 : truthy (adminFlag group msg.key.participant) <;>
      simp [remediate_store]


/-! ## The command router -/

theorem linkPolicy_upsert (groupId : String) (value : Bool) : ∀ store : List GroupSettings,
    linkPolicy (upsertAntiLink groupId value store) groupId = some value := by
  intro store
  unfold linkPolicy
  induction store with
  | nil => simp [upsertAntiLink]
  | cons d ds ih =>
    unfold upsertAntiLink
    by_cases h : (d.groupId == groupId) = true
    · simp [h]
    · simp only [h, Bool.false_eq_true, if_false, List.find?_cons]
      exact ih

theorem toLowerCase_of_caseVariant (text command : String)
    (hascii : ∀ n ∈ command.toList.map Char.toNat, n ≠ 8490)
    (hcase : text.toList.map Char.toLower = command.toList) :
    toLowerCase text = command := by
  unfold toLowerCase
  have hmap : text.toList.map lowerChar = text.toList.map Char.toLower := by
    apply List.map_congr_left
    intro c hc
    unfold lowerChar
    split
    · rename_i hk
      exfalso
      have hmem : c.toLower ∈ command.toList := by
        rw [← hcase]; exact List.mem_map_of_mem _ hc
      have hnat : c.toLower.toNat ∈ command.toList.map Char.toNat := List.mem_map_of_mem _ hmem
      have hval : c.toLower.toNat = 8490 := by
        rw [toNat_toLower, hk]; simp
      exact hascii _ hnat hval
    · rfl
  rw [hmap, hcase]
  rfl

theorem link_has_dot_or_colon (text : String) (h : linkRegexTest text = true) :
    '.' ∈ text.toList ∨ ':' ∈ text.toList := by
  obtain ⟨p, m, q, htext, hm⟩ := (linkRegexTest_iff_spec text).mp h
  rw [htext]
  rcases hm with ⟨scheme, c, rfl, _, hs | hs | hs⟩ | ⟨labels, tld, hne, _, _, _, rfl⟩
  · right
    have hmem : ':' ∈ scheme.map Char.toLower := by rw [hs]; decide
    obtain ⟨x, hx, hxl⟩ := List.mem_map.mp hmem
    have hx2 : x = ':' := by
      rw [← toNat_inj] at hxl ⊢
      rw [toNat_toLower] at hxl
      have : (':' : Char).toNat = 58 := rfl
      rw [this] at hxl ⊢
      split at hxl <;> omega
    subst hx2
    simp [hx]
  · right
    have hmem : ':' ∈ scheme.map Char.toLower := by rw [hs]; decide
    obtain ⟨x, hx, hxl⟩ := List.mem_map.mp hmem
    have hx2 : x = ':' := by
      rw [← toNat_inj] at hxl ⊢
      rw [toNat_toLower] at hxl
      have : (':' : Char).toNat = 58 := rfl
      rw [this] at hxl ⊢
      split at hxl <;> omega
    subst hx2
    simp [hx]
  · left
    have hmem : '.' ∈ scheme.map Char.toLower := by rw [hs]; decide
    obtain ⟨x, hx, hxl⟩ := List.mem_map.mp hmem
    have hx2 : x = '.' := (toLower_eq_dot x).mp hxl
    subst hx2
    simp [hx]
  · left
    cases labels with
    | nil => exact absurd rfl hne
    | cons l rest => simp

theorem link_is_not_command (text command : String)
    (hdot : '.' ∉ command.toList) (hcolon : ':' ∉ command.toList)
    (h : linkRegexTest text = true) :
    (toLowerCase text == command) = false := by
  rw [beq_eq_false_iff_ne]
  intro heq
  have hlist : text.toList.map lowerChar = command.toList := by
    rw [← heq]; rfl
  rcases link_has_dot_or_colon text h with hmem | hmem
  · have := List.mem_map_of_mem lowerChar hmem
    rw [hlist] at this
    exact hdot this
  · have := List.mem_map_of_mem lowerChar hmem
    rw [hlist] at this
    exact hcolon this

theorem handleIncomingMessages_allowed (env : Env) (st : State) (msg : WAMessage)
    (hpol : linkPolicy st.store msg.key.remoteJid = some false) :
    (handleIncomingMessages env st (some msg)).2 = st := by
  unfold handleIncomingMessages
  simp only
  split
  · rfl
  · split
    · rfl
    · unfold linkPolicy at hpol
      unfold fetchGroupSettings findOne save
      cases env.dbError with
      | some e => rfl
      | none =>
        cases hf : st.store.find? (fun d => d.groupId == msg.key.remoteJid) with
        | none => rw [hf] at hpol; simp at hpol
        | some d =>
          rw [hf] at hpol
          simp only [Option.map_some', Option.some.injEq] at hpol
          simp [hpol]

theorem handleCommands_on_link (env : Env) (st : State) (msg : WAMessage)
    (hlink : linkRegexTest (messageText msg.message) = true) :
    (handleCommands env st msg).2 = st := by
  have hon := link_is_not_command (messageText msg.message) "!antilink on" (by decide)
    (by decide) hlink
  have hoff := link_is_not_command (messageText msg.message) "!antilink off" (by decide)
    (by decide) hlink
  unfold handleCommands
  by_cases hj : isGroupJid msg.key.remoteJid = true
  · cases hc : checkIfAdmin env msg.key.participant msg.key.remoteJid with
    | error e => simp [hj, hc]
    | ok isAdmin =>
      by_cases ha : truthy isAdmin = true
      · simp [hj, hc, ha, toggle, hon, hoff]
      · simp [hj, hc, ha]
  · simp [hj]

theorem onMessagesUpsert_allowed_link (env : Env) (st : State) (msg : WAMessage)
    (hpol : linkPolicy st.store msg.key.remoteJid = some false)
    (hlink : linkRegexTest (messageText msg.message) = true) :
    (onMessagesUpsert env st (some [msg])).2 = st := by
  have h1 := handleIncomingMessages_allowed env st msg hpol
  unfold onMessagesUpsert
  simp only [Option.bind, List.head?]
  by_cases hn : msg.message.isNone = true
  · simp [hn]
  · simp only [hn, Bool.false_eq_true, if_false]
    cases hr : handleIncomingMessages env st (some msg) with
    | mk res st1 =>
      rw [hr] at h1
      simp only at h1
      subst h1
      cases res with
      | error e => rfl
      | ok u => exact handleCommands_on_link env _ msg hlink


theorem handleAll_allowed_links (groupId : String) : ∀ (later : List (Env × WAMessage))
    (st : State), linkPolicy st.store groupId = some false →
    (∀ p ∈ later, p.2.key.remoteJid = groupId ∧ linkRegexTest (messageText p.2.message) = true) →
    handleAll st later = st := by
  intro later
  induction later with
  | nil => intro st _ _; rfl
  | cons p rest ih =>
    intro st hpol hall
    obtain ⟨env, msg⟩ := p
    obtain ⟨hg, hl⟩ := hall (env, msg) (List.mem_cons_self _ _)
    simp only at hg hl
    unfold handleAll
    rw [onMessagesUpsert_allowed_link env st msg (by rw [hg]; exact hpol) hl]
    exact ih st hpol (fun q hq => hall q (List.mem_cons_of_mem _ hq))

theorem handleCommands_off (env : Env) (st : State) (msg : WAMessage) (group : GroupMetadata)
    (hjid : isGroupJid msg.key.remoteJid = true)
    (hcase : (messageText msg.message).toList.map Char.toLower = "!antilink off".toList)
    (hmeta : env.groupMetadata msg.key.remoteJid = .ok group)
    (hadmin : truthy (adminFlag group msg.key.participant) = true)
    (hdb : env.dbError = none) :
    (handleCommands env st msg).2 =
      { store := upsertAntiLink msg.key.remoteJid false st.store,
        calls := st.calls ++ [disabledCall msg.key.remoteJid] } := by
  have hlow := toLowerCase_of_caseVariant (messageText msg.message) "!antilink off"
    (by decide) hcase
  unfold handleCommands
  simp only [hjid, checkIfAdmin, hmeta, hadmin, toggle, hlow, findOneAndUpdate, hdb,
    Bool.not_true, Bool.false_eq_true, if_false]
  have hne : ("!antilink off" == "!antilink on") = false := by decide
  simp only [hne, Bool.false_eq_true, if_false, beq_self_eq_true, if_true]
  rw [issue_calls]


/-! ## The connection supervisor -/

/-- A socket as `authenticateBot` leaves it. -/
theorem authenticateBot_sockets (bot : Bot) :
    (authenticateBot bot).1.sockets =
      bot.sockets ++ [{ listeners := [.connectionUpdate, .credsUpdate] }] := rfl

theorem runEffects_length : ∀ (effects : List Effect) (bot : Bot),
    (runEffects bot effects).sockets.length = bot.sockets.length + attempts effects := by
  intro effects
  induction effects with
  | nil => intro bot; simp [runEffects, attempts]
  | cons eff rest ih =>
    intro bot
    cases eff with
    | log line =>
      simp only [runEffects, ih, attempts]
      rw [List.count_cons_of_ne (by simp)]
    | authenticateBot =>
      simp only [runEffects, ih, attempts, authenticateBot_sockets, List.length_append,
        List.length_singleton, List.count_cons_self]
      omega

theorem attempts_onConnectionUpdate (loggedOut : Int) (update : ConnectionUpdate) :
    attempts (onConnectionUpdate loggedOut update) =
      if update.connection = some "close" ∧ closeReason update ≠ some loggedOut then 1 else 0 := by
  unfold onConnectionUpdate attempts
  by_cases h1 : update.connection = some "close"
  · by_cases h2 : closeReason update = some loggedOut
    · simp [h1, h2]
    · simp [h1, h2]
  · by_cases h3 : update.connection = some "open"
    · simp [h1, h3]
    · by_cases h4 : update.connection = some "qr"
      · simp [h1, h3, h4]
      · simp [h1, h3, h4]

theorem last_of_replicate (a p : Socket) (j : Nat) :
    (a :: List.replicate (j + 1) p)[(a :: List.replicate (j + 1) p).length - 1]? = some p := by
  have hlen : (a :: List.replicate (j + 1) p).length - 1 = j + 1 := by simp
  rw [hlen, List.getElem?_cons_succ, List.getElem?_replicate]
  simp

/-- After `n` drops that are not a logout, the sockets are the first one, which
has the `messages.upsert` listener, and `n` more without it. -/
theorem dropAndReconnect_sockets (loggedOut : Int) (update : ConnectionUpdate)
    (hclose : update.connection = some "close")
    (hreason : closeReason update ≠ some loggedOut) : ∀ (n k : Nat),
    (dropAndReconnect loggedOut update n
        { sockets := startBot.sockets ++
            List.replicate k { listeners := [.connectionUpdate, .credsUpdate] } }).sockets =
      startBot.sockets ++
        List.replicate (k + n) { listeners := [.connectionUpdate, .credsUpdate] } := by
  intro n
  induction n with
  | zero => intro k; rfl
  | succ n ih =>
    intro k
    have hstep : emitConnectionUpdate loggedOut
        { sockets := startBot.sockets ++
            List.replicate k { listeners := [.connectionUpdate, .credsUpdate] } }
        (liveSocket { sockets := startBot.sockets ++
            List.replicate k { listeners := [.connectionUpdate, .credsUpdate] } }) update =
        { sockets := startBot.sockets ++
            List.replicate (k + 1) { listeners := [.connectionUpdate, .credsUpdate] } } := by
      have hlisten : hasListener
          { sockets := startBot.sockets ++
              List.replicate k { listeners := [.connectionUpdate, .credsUpdate] } }
          (liveSocket { sockets := startBot.sockets ++
              List.replicate k { listeners := [.connectionUpdate, .credsUpdate] } })
          .connectionUpdate = true := by
        cases k with
        | zero => decide
        | succ j =>
          have hs : startBot.sockets =
              [{ listeners := [.connectionUpdate, .credsUpdate, .messagesUpsert] }] := rfl
          simp only [hasListener, liveSocket, hs, List.singleton_append, List.get?_eq_getElem?,
            last_of_replicate]
          decide
      unfold emitConnectionUpdate
      rw [hlisten]
      simp only [onConnectionUpdate, hclose, hreason, if_true, ne_eq, not_false_eq_true, runEffects,
        List.replicate_succ']
      show Bot.mk _ = _
      simp only [List.append_assoc]
    show (dropAndReconnect loggedOut update n (emitConnectionUpdate loggedOut _ _ update)).sockets
      = _
    rw [hstep, ih (k + 1)]
    congr 2
    omega

theorem reconnected_socket_is_deaf (loggedOut : Int) (update : ConnectionUpdate) (n : Nat)
    (hclose : update.connection = some "close")
    (hreason : closeReason update ≠ some loggedOut) (hn : 0 < n) :
    hasListener (dropAndReconnect loggedOut update n startBot)
      (liveSocket (dropAndReconnect loggedOut update n startBot)) .messagesUpsert = false := by
  have h := dropAndReconnect_sockets loggedOut update hclose hreason n 0
  simp only [List.replicate_zero, List.append_nil, Nat.zero_add] at h
  have hs : startBot.sockets =
      [{ listeners := [.connectionUpdate, .credsUpdate, .messagesUpsert] }] := rfl
  have hbot : ({ sockets := startBot.sockets } : Bot) = startBot := rfl
  rw [hbot] at h
  obtain ⟨m, rfl⟩ : ∃ m, n = m + 1 := ⟨n - 1, by omega⟩
  simp only [hasListener, liveSocket, h, hs, List.singleton_append, List.get?_eq_getElem?,
    last_of_replicate]
  decide

/-! ## The get-or-create step -/

/-- Two moves of one run, nothing in between, are the "fetch group settings"
step of the handler. -/
theorem fetchStep_twice (env : Env) (store : List GroupSettings) (groupId : String)
    (hdb : env.dbError = none) :
    fetchGroupSettings env store groupId =
      .ok (match (fetchStep groupId (fetchStep groupId store .start).1
              (fetchStep groupId store .start).2).2 with
            | .done settings => settings
            | _ => newGroupSettings groupId,
           (fetchStep groupId (fetchStep groupId store .start).1
              (fetchStep groupId store .start).2).1) := by
  rw [fetchGroupSettings_ok env store groupId hdb]
  simp only [fetchStep]
  cases store.find? (fun d => d.groupId == groupId) <;> rfl

/-- One run after the other from a collection without a document for the
group: one document, and both runs end with the policy `true`. -/
theorem sequential_fetch_single_record (store : List GroupSettings) (groupId : String)
    (hfresh : ∀ d ∈ store, d.groupId ≠ groupId) :
    runSchedule groupId [0, 0, 1, 1] (store, [.start, .start]) =
      (store ++ [newGroupSettings groupId],
        [.done (newGroupSettings groupId), .done (newGroupSettings groupId)]) ∧
    recordCount (store ++ [newGroupSettings groupId]) groupId = 1 := by
  have hfind : store.find? (fun d => d.groupId == groupId) = none := by
    rw [List.find?_eq_none]
    intro d hd
    simpa using hfresh d hd
  have hcount : store.countP (fun d => d.groupId == groupId) = 0 := by
    rw [List.countP_eq_zero]
    intro d hd
    simpa using hfresh d hd
  constructor
  · simp [runSchedule, fetchStep, hfind, newGroupSettings]
  · simp [recordCount, List.countP_append, hcount, newGroupSettings]


/-! ## The privilege check and the roles of the snapshot -/

theorem find_sender_append (sender : String) : ∀ (before : List GroupParticipant)
    (p : GroupParticipant) (after : List GroupParticipant),
    (∀ q ∈ before, q.id ≠ sender) → p.id = sender →
    (before ++ p :: after).find? (fun q => q.id == sender) = some p := by
  intro before
  induction before with
  | nil =>
    intro p after _ hp
    simp [hp]
  | cons b before ih =>
    intro p after hbefore hp
    have hb : (b.id == sender) = false := by
      simpa using hbefore b (List.mem_cons_self _ _)
    rw [List.cons_append, List.find?_cons, hb]
    exact ih p after (fun q hq => hbefore q (List.mem_cons_of_mem _ hq)) hp

theorem find_sender_split (sender : String) : ∀ (ps : List GroupParticipant)
    (p : GroupParticipant), ps.find? (fun q => q.id == sender) = some p →
    ∃ before after, ps = before ++ p :: after ∧ (∀ q ∈ before, q.id ≠ sender) ∧
      p.id = sender := by
  intro ps
  induction ps with
  | nil => intro p h; simp at h
  | cons b ps ih =>
    intro p h
    rw [List.find?_cons] at h
    by_cases hb : (b.id == sender) = true
    · rw [hb] at h
      simp only [Option.some.injEq] at h
      subst h
      exact ⟨[], ps, rfl, by simp, by simpa using hb⟩
    · rw [Bool.not_eq_true] at hb
      rw [hb] at h
      obtain ⟨before, after, hps, hbefore, hp⟩ := ih p h
      refine ⟨b :: before, after, by simp [hps], ?_, hp⟩
      intro q hq
      rcases List.mem_cons.mp hq with rfl | hq
      · simpa using hb
      · exact hbefore q hq

/-- The flag that `checkIfAdmin` computes is truthy exactly for an elevated sender. -/
theorem truthy_adminFlag_iff (group : GroupMetadata) (sender : String) :
    truthy (adminFlag group sender) = true ↔ SpecElevated group sender := by
  unfold adminFlag SpecElevated
  constructor
  · intro h
    cases hf : group.participants.find? (fun q => q.id == sender) with
    | none => rw [hf] at h; simp [truthy] at h
    | some p =>
      rw [hf] at h
      obtain ⟨before, after, hps, hbefore, hp⟩ := find_sender_split sender _ p hf
      refine ⟨before, p, after, hps, hbefore, hp, ?_⟩
      simpa [truthy] using h
  · rintro ⟨before, p, after, hps, hbefore, hp, hrole⟩
    rw [hps, find_sender_append sender before p after hbefore hp]
    rcases hrole with h | h <;> simp [truthy, h]

theorem adminFlag_falsy_iff (group : GroupMetadata) (sender : String) :
    truthy (adminFlag group sender) = false ↔ ¬ SpecElevated group sender := by
  rw [← truthy_adminFlag_iff]
  simp

/-- When the snapshot lists every member once, the sender is elevated exactly
when some entry has the sender's id and the role admin or superadmin. -/
theorem specElevated_iff_mem (group : GroupMetadata) (sender : String)
    (hnodup : (group.participants.map (fun p => p.id)).Nodup) :
    SpecElevated group sender ↔
      ∃ p ∈ group.participants, p.id = sender ∧
        (p.admin = some "admin" ∨ p.admin = some "superadmin") := by
  constructor
  · rintro ⟨before, p, after, hps, _, hp, hrole⟩
    exact ⟨p, by rw [hps]; simp, hp, hrole⟩
  · rintro ⟨p, hmem, hp, hrole⟩
    obtain ⟨before, after, hps⟩ := List.append_of_mem hmem
    refine ⟨before, p, after, hps, ?_, hp, hrole⟩
    intro q hq hqs
    rw [hps, List.map_append, List.map_cons, List.nodup_append] at hnodup
    have hdis := hnodup.2.2
    exact List.disjoint_left.mp hdis (List.mem_map_of_mem (fun p => p.id) hq)
      (by rw [hqs, ← hp]; exact List.mem_cons_self _ _)

theorem remediate_keeps_store (env : Env) (st : State) (groupId sender : String)
    (key : MessageKey) :
    (remediate env st groupId sender key).2.store = st.store := by
  unfold remediate issue
  cases env.reject (warnCall groupId sender) <;> simp only
  cases env.reject (deleteCall groupId key) <;> simp only
  cases env.reject (removeCall groupId sender) <;> simp only


/-! ## Claims on the moderation pipeline -/

/-- C1: for an admitted group message (body present, not from self, group id
ending in `@g.us`), any settings collection and any membership snapshot: when
the group's policy is true (the default of a group without a document), the
text matches `linkRegex` and the sender's entry in the snapshot does not have
the role admin or superadmin, the calls that `handleIncomingMessages` adds are
those of one run of the remediation sequence, with an accepting backend exactly
warn, delete, remove, once each; in every other case it adds no call. In
particular a sender whose entry has the role admin or superadmin never triggers
remediation, and neither does a false policy. -/
theorem pipeline_remediates_exactly_violations (env : Env) (st : State) (msg : WAMessage)
    (content : MessageContent) (group : GroupMetadata)
    (hmsg : msg.message = some content) (hself : msg.key.fromMe = false)
    (hjid : isGroupJid msg.key.remoteJid = true) (hdb : env.dbError = none)
    (hmeta : env.groupMetadata msg.key.remoteJid = .ok group) :
    (((linkPolicy st.store msg.key.remoteJid).getD true = true ∧
        linkRegexTest (messageText msg.message) = true ∧
        ¬ SpecElevated group msg.key.participant) →
      (handleIncomingMessages env st (some msg)).2.calls =
          (remediate env st msg.key.remoteJid msg.key.participant msg.key).2.calls ∧
        ((∀ call, env.reject call = none) →
          (handleIncomingMessages env st (some msg)).2.calls =
            st.calls ++
              [.sendMessage msg.key.remoteJid
                  (.text ("🚫 Link detected, removing @" ++ userPart msg.key.participant)
                    [msg.key.participant]),
                .sendMessage msg.key.remoteJid (.delete msg.key),
                .groupParticipantsUpdate msg.key.remoteJid [msg.key.participant] "remove"])) ∧
    (¬ ((linkPolicy st.store msg.key.remoteJid).getD true = true ∧
        linkRegexTest (messageText msg.message) = true ∧
        ¬ SpecElevated group msg.key.participant) →
      (handleIncomingMessages env st (some msg)).2.calls = st.calls) ∧
    (SpecElevated group msg.key.participant →
      (handleIncomingMessages env st (some msg)).2.calls = st.calls) ∧
    (linkPolicy st.store msg.key.remoteJid = some false →
      (handleIncomingMessages env st (some msg)).2.calls = st.calls) := by
  have key := handleIncomingMessages_calls env st msg content group hmsg hself hjid hdb hmeta
  refine ⟨?_, ?_, ?_, ?_⟩
  · rintro ⟨hpol, hlink, hplain⟩
    have hflag := (adminFlag_falsy_iff group msg.key.participant).mpr hplain
    rw [key, hpol, hlink, hflag]
    simp only [Bool.and_self, Bool.not_false, if_true, true_and]
    intro hacc
    rw [remediate_accepted env st _ _ _ (hacc _) (hacc _) (hacc _)]
    rfl
  · intro hnot
    rw [key]
    split
    · rename_i hcond
      simp only [Bool.and_eq_true, Bool.not_eq_true'] at hcond
      exact absurd ⟨hcond.1.1, hcond.1.2, (adminFlag_falsy_iff _ _).mp hcond.2⟩ hnot
    · rfl
  · intro helev
    rw [key, (truthy_adminFlag_iff group msg.key.participant).mpr helev]
    simp
  · intro hpol
    rw [key, hpol]
    simp

theorem pipeline_remediates_exactly_violations_witness :
    (linkPolicy freshState.store linkMessage.key.remoteJid).getD true = true ∧
      linkRegexTest (messageText linkMessage.message) = true ∧
      ¬ SpecElevated sampleGroup linkMessage.key.participant ∧
      (handleIncomingMessages calmEnv freshState (some linkMessage)).2.calls =
        [.sendMessage "120363@g.us"
            (.text "🚫 Link detected, removing @guest" ["guest@s.whatsapp.net"]),
          .sendMessage "120363@g.us" (.delete linkMessage.key),
          .groupParticipantsUpdate "120363@g.us" ["guest@s.whatsapp.net"] "remove"] ∧
      SpecElevated sampleGroup "owner@s.whatsapp.net" ∧
      (handleIncomingMessages calmEnv freshState
        (some (sampleMessage "owner@s.whatsapp.net" "www.x.io"))).2.calls = [] :=
  ⟨by decide, by decide, (adminFlag_falsy_iff _ _).mp (by decide),
    ((pipeline_remediates_exactly_violations calmEnv freshState linkMessage _ sampleGroup rfl rfl
      (by decide) rfl rfl).1
      ⟨by decide, by decide, (adminFlag_falsy_iff _ _).mp (by decide)⟩).2 (fun _ => rfl),
    (truthy_adminFlag_iff _ _).mp (by decide),
    (pipeline_remediates_exactly_violations calmEnv freshState
      (sampleMessage "owner@s.whatsapp.net" "www.x.io") _ sampleGroup rfl rfl
      (by decide) rfl rfl).2.2.1 ((truthy_adminFlag_iff _ _).mp (by decide))⟩

/-- C3, counterexample: a group without a settings document, a sender whose
entry has no admin role, the text "check http://evil.example", and a backend
that rejects the deletion: the document is inserted, the warning and the
deletion are issued, and the removal is not; the three calls of the claim are
not what is emitted. -/
theorem fresh_group_rejected_deletion_emits_two :
    (∀ d ∈ freshState.store, d.groupId ≠ linkMessage.key.remoteJid) ∧
      ¬ SpecElevated sampleGroup linkMessage.key.participant ∧
      messageText linkMessage.message = "check http://evil.example" ∧
      (handleIncomingMessages noDeleteEnv freshState (some linkMessage)).2.store =
        [{ groupId := "120363@g.us", antiLink := true }] ∧
      (handleIncomingMessages noDeleteEnv freshState (some linkMessage)).2.calls =
        [.sendMessage "120363@g.us"
            (.text "🚫 Link detected, removing @guest" ["guest@s.whatsapp.net"]),
          .sendMessage "120363@g.us" (.delete linkMessage.key)] ∧
      (handleIncomingMessages noDeleteEnv freshState (some linkMessage)).2.calls ≠
        [.sendMessage "120363@g.us"
            (.text "🚫 Link detected, removing @guest" ["guest@s.whatsapp.net"]),
          .sendMessage "120363@g.us" (.delete linkMessage.key),
          .groupParticipantsUpdate "120363@g.us" ["guest@s.whatsapp.net"] "remove"] :=
  ⟨by decide, (adminFlag_falsy_iff _ _).mp (by decide), by decide, by decide, by decide,
    by decide⟩

/-- C3, amended: in a group without a settings document, a link posted by a
sender whose entry in the snapshot has no admin role (in particular the text
"check http://evil.example") makes `handleIncomingMessages` insert a document
for the group with `antiLink = true`; and when the backend accepts each of the
three calls, it issues exactly these three in this order, once each: the
warning that mentions the sender, the deletion of the message by its key, the
removal of the sender. -/
theorem fresh_group_link_is_remediated (env : Env) (st : State) (msg : WAMessage)
    (content : MessageContent) (group : GroupMetadata)
    (hmsg : msg.message = some content) (hself : msg.key.fromMe = false)
    (hjid : isGroupJid msg.key.remoteJid = true) (hdb : env.dbError = none)
    (hmeta : env.groupMetadata msg.key.remoteJid = .ok group)
    (hfresh : ∀ d ∈ st.store, d.groupId ≠ msg.key.remoteJid)
    (hlink : linkRegexTest (messageText msg.message) = true)
    (hplain : ¬ SpecElevated group msg.key.participant) :
    (handleIncomingMessages env st (some msg)).2.store =
        st.store ++ [{ groupId := msg.key.remoteJid, antiLink := true }] ∧
      ((∀ call ∈ remediation msg, env.reject call = none) →
        handleIncomingMessages env st (some msg) =
          (.ok (),
            { store := st.store ++ [{ groupId := msg.key.remoteJid, antiLink := true }],
              calls := st.calls ++
                [.sendMessage msg.key.remoteJid
                    (.text ("🚫 Link detected, removing @" ++ userPart msg.key.participant)
                      [msg.key.participant]),
                  .sendMessage msg.key.remoteJid (.delete msg.key),
                  .groupParticipantsUpdate msg.key.remoteJid [msg.key.participant]
                    "remove"] })) ∧
      linkRegexTest "check http://evil.example" = true := by
  have hflag := (adminFlag_falsy_iff group msg.key.participant).mpr hplain
  have hfind : st.store.find? (fun d => d.groupId == msg.key.remoteJid) = none := by
    rw [List.find?_eq_none]
    intro d hd
    simpa using hfresh d hd
  have hfetch := fetchGroupSettings_ok env st.store msg.key.remoteJid hdb
  rw [hfind] at hfetch
  rw [hmsg] at hlink
  have hrun : handleIncomingMessages env st (some msg) =
      remediate env { st with store := st.store ++ [newGroupSettings msg.key.remoteJid] }
        msg.key.remoteJid msg.key.participant msg.key := by
    unfold handleIncomingMessages
    simp only [hmsg, hself, hjid, Option.isNone_some, Bool.or_self, Bool.false_eq_true, if_false,
      Bool.not_true, hfetch, newGroupSettings, hlink, Bool.and_self, if_true, checkIfAdmin, hmeta,
      hflag, Bool.not_false]
  refine ⟨?_, ?_, by decide⟩
  · rw [hrun, remediate_keeps_store]
    rfl
  · intro haccept
    rw [hrun, remediate_accepted]
    · rfl
    · exact haccept _ (by simp [remediation])
    · exact haccept _ (by simp [remediation])
    · exact haccept _ (by simp [remediation])

theorem fresh_group_link_is_remediated_witness :
    (∀ d ∈ freshState.store, d.groupId ≠ linkMessage.key.remoteJid) ∧
      linkRegexTest (messageText linkMessage.message) = true ∧
      ¬ SpecElevated sampleGroup linkMessage.key.participant ∧
      (∀ call ∈ remediation linkMessage, calmEnv.reject call = none) ∧
      handleIncomingMessages calmEnv freshState (some linkMessage) =
        (.ok (),
          { store := [{ groupId := "120363@g.us", antiLink := true }],
            calls :=
              [.sendMessage "120363@g.us"
                  (.text "🚫 Link detected, removing @guest" ["guest@s.whatsapp.net"]),
                .sendMessage "120363@g.us" (.delete linkMessage.key),
                .groupParticipantsUpdate "120363@g.us" ["guest@s.whatsapp.net"] "remove"] }) :=
  ⟨by decide, by decide, (adminFlag_falsy_iff _ _).mp (by decide), fun _ _ => rfl,
    (fresh_group_link_is_remediated calmEnv freshState linkMessage _ sampleGroup rfl rfl
      (by decide) rfl rfl (by decide) (by decide)
      ((adminFlag_falsy_iff _ _).mp (by decide))).2.1 (fun _ _ => rfl)⟩


/-- C5: when the sender of a group message is not admin or superadmin in the
membership snapshot, `handleCommands` issues no call and leaves the settings
collection as it was, whatever the text (the two commands included). -/
theorem commands_ignore_plain_members (env : Env) (st : State) (msg : WAMessage)
    (group : GroupMetadata)
    (hmeta : env.groupMetadata msg.key.remoteJid = .ok group)
    (hplain : truthy (adminFlag group msg.key.participant) = false) :
    handleCommands env st msg = (.ok (), st) := by
  unfold handleCommands
  simp only [checkIfAdmin, hmeta, hplain]
  split <;> simp

theorem commands_ignore_plain_members_witness :
    calmEnv.groupMetadata (sampleMessage "guest@s.whatsapp.net" "!AntiLink OFF").key.remoteJid =
        .ok sampleGroup ∧
      truthy (adminFlag sampleGroup
        (sampleMessage "guest@s.whatsapp.net" "!AntiLink OFF").key.participant) = false ∧
      handleCommands calmEnv freshState (sampleMessage "guest@s.whatsapp.net" "!AntiLink OFF") =
        (.ok (), freshState) :=
  ⟨rfl, by decide,
    commands_ignore_plain_members calmEnv freshState _ sampleGroup rfl (by decide)⟩

/-- C6, counterexample: the backend rejects the deletion of a violating message;
the handler ends right there and the removal of the sender is never issued.
When it rejects the warning, neither the deletion nor the removal is issued. -/
theorem rejected_step_blocks_later_steps :
    (handleIncomingMessages noDeleteEnv freshState (some linkMessage)).1 = .error "forbidden" ∧
      (handleIncomingMessages noDeleteEnv freshState (some linkMessage)).2.calls =
        [warnCall "120363@g.us" "guest@s.whatsapp.net", deleteCall "120363@g.us" linkMessage.key] ∧
      removeCall "120363@g.us" "guest@s.whatsapp.net" ∉
        (handleIncomingMessages noDeleteEnv freshState (some linkMessage)).2.calls ∧
      (handleIncomingMessages noTextEnv freshState (some linkMessage)).2.calls =
        [warnCall "120363@g.us" "guest@s.whatsapp.net"] :=
  ⟨by rfl, by decide, by decide, by decide⟩

/-- C6, amended: the three calls of the remediation are awaited one after the
other without a `try`; the first one the backend rejects ends the handler with
that rejection and no later step is issued. A rejected warning leaves only the
warning issued, a rejected deletion leaves the warning and the deletion issued,
and the removal is issued once both were accepted. -/
theorem remediation_stops_at_first_rejection (env : Env) (st : State) (msg : WAMessage)
    (content : MessageContent) (group : GroupMetadata)
    (hmsg : msg.message = some content) (hself : msg.key.fromMe = false)
    (hjid : isGroupJid msg.key.remoteJid = true) (hdb : env.dbError = none)
    (hmeta : env.groupMetadata msg.key.remoteJid = .ok group)
    (hviol : violates st.store group msg = true) :
    (∀ e, env.reject (warnCall msg.key.remoteJid msg.key.participant) = some e →
      (handleIncomingMessages env st (some msg)).1 = .error e ∧
      (handleIncomingMessages env st (some msg)).2.calls =
        st.calls ++ [warnCall msg.key.remoteJid msg.key.participant]) ∧
    (∀ e, env.reject (warnCall msg.key.remoteJid msg.key.participant) = none →
      env.reject (deleteCall msg.key.remoteJid msg.key) = some e →
      (handleIncomingMessages env st (some msg)).1 = .error e ∧
      (handleIncomingMessages env st (some msg)).2.calls =
        st.calls ++ [warnCall msg.key.remoteJid msg.key.participant,
          deleteCall msg.key.remoteJid msg.key]) ∧
    (env.reject (warnCall msg.key.remoteJid msg.key.participant) = none →
      env.reject (deleteCall msg.key.remoteJid msg.key) = none →
      (handleIncomingMessages env st (some msg)).2.calls = st.calls ++ remediation msg) := by
  have hfetch := fetchGroupSettings_ok env st.store msg.key.remoteJid hdb
  unfold violates at hviol
  simp only [Bool.and_eq_true, Bool.not_eq_true'] at hviol
  obtain ⟨⟨hpol, hlink⟩, hplain⟩ := hviol
  rw [hmsg] at hlink
  have hrun : handleIncomingMessages env st (some msg) =
      remediate env
        { st with store := (match st.store.find? (fun d => d.groupId == msg.key.remoteJid) with
            | some _ => st.store
            | none => st.store ++ [newGroupSettings msg.key.remoteJid]) }
        msg.key.remoteJid msg.key.participant msg.key := by
    unfold handleIncomingMessages
    unfold linkPolicy at hpol
    simp only [hmsg, hself, hjid, Option.isNone_some, Bool.or_self, Bool.false_eq_true, if_false,
      Bool.not_true, hfetch]
    cases hf : st.store.find? (fun d => d.groupId == msg.key.remoteJid) with
    | none =>
      simp only [newGroupSettings, hlink, Bool.and_self, if_true, checkIfAdmin, hmeta, hplain,
        Bool.not_false]
    | some d =>
      rw [hf] at hpol
      simp only [Option.map_some', Option.getD_some] at hpol
      simp only [hpol, hlink, Bool.and_self, if_true, checkIfAdmin, hmeta, hplain,
        Bool.not_false]
  rw [hrun]
  refine ⟨?_, ?_, ?_⟩
  · intro e h1
    unfold remediate
    rw [issue_error env _ _ e h1]
    exact ⟨rfl, rfl⟩
  · intro e h1 h2
    unfold remediate
    rw [issue_ok env _ _ h1]
    simp only
    rw [issue_error env _ _ e h2]
    simp
  · intro h1 h2
    unfold remediate
    rw [issue_ok env _ _ h1]
    simp only
    rw [issue_ok env _ _ h2]
    simp only
    rw [issue_calls]
    simp [remediation]

theorem remediation_stops_at_first_rejection_witness :
    violates freshState.store sampleGroup linkMessage = true ∧
      noDeleteEnv.reject (warnCall linkMessage.key.remoteJid linkMessage.key.participant) = none ∧
      noDeleteEnv.reject (deleteCall linkMessage.key.remoteJid linkMessage.key) =
        some "forbidden" ∧
      (handleIncomingMessages noDeleteEnv freshState (some linkMessage)).1 = .error "forbidden" ∧
      (handleIncomingMessages noDeleteEnv freshState (some linkMessage)).2.calls =
        freshState.calls ++ [warnCall linkMessage.key.remoteJid linkMessage.key.participant,
          deleteCall linkMessage.key.remoteJid linkMessage.key] :=
  ⟨by decide, by decide, by decide,
    (remediation_stops_at_first_rejection noDeleteEnv freshState linkMessage _ sampleGroup rfl rfl
      (by decide) rfl rfl (by decide)).2.1 "forbidden" (by decide) (by decide)⟩

/-- C7, counterexample: the membership lookup fails and `checkIfAdmin` does not
return `false`; its promise is rejected with the error of the lookup. -/
theorem failed_lookup_is_not_false :
    noMetadataEnv.groupMetadata "120363@g.us" = .error "timed out" ∧
      checkIfAdmin noMetadataEnv "guest@s.whatsapp.net" "120363@g.us" ≠ .ok (some false) ∧
      checkIfAdmin noMetadataEnv "guest@s.whatsapp.net" "120363@g.us" = .error "timed out" := by
  refine ⟨rfl, ?_, rfl⟩
  intro h
  cases h

/-- C7, amended: when the group membership lookup fails, `checkIfAdmin` raises
the error of the lookup instead of returning a value. A handler that awaits it
ends with that error: `handleCommands` changes nothing, and
`handleIncomingMessages`, which asks only for a link in a group whose policy is
true, issues no call. -/
theorem failed_lookup_propagates (env : Env) (st : State) (msg : WAMessage)
    (content : MessageContent) (e : Err)
    (hmeta : env.groupMetadata msg.key.remoteJid = .error e) :
    checkIfAdmin env msg.key.participant msg.key.remoteJid = .error e ∧
    (isGroupJid msg.key.remoteJid = true → handleCommands env st msg = (.error e, st)) ∧
    (msg.message = some content → msg.key.fromMe = false →
      isGroupJid msg.key.remoteJid = true → env.dbError = none →
      (linkPolicy st.store msg.key.remoteJid).getD true = true →
      linkRegexTest (messageText msg.message) = true →
      (handleIncomingMessages env st (some msg)).1 = .error e ∧
      (handleIncomingMessages env st (some msg)).2.calls = st.calls) := by
  have hcheck : checkIfAdmin env msg.key.participant msg.key.remoteJid = .error e := by
    unfold checkIfAdmin
    rw [hmeta]
  refine ⟨hcheck, ?_, ?_⟩
  · intro hjid
    unfold handleCommands
    simp only [hjid, hcheck, Bool.not_true, Bool.false_eq_true, if_false]
  · intro hmsg hself hjid hdb hpol hlink
    have hfetch := fetchGroupSettings_ok env st.store msg.key.remoteJid hdb
    rw [hmsg] at hlink
    unfold handleIncomingMessages
    unfold linkPolicy at hpol
    simp only [hmsg, hself, hjid, Option.isNone_some, Bool.or_self, Bool.false_eq_true, if_false,
      Bool.not_true, hfetch]
    cases hf : st.store.find? (fun d => d.groupId == msg.key.remoteJid) with
    | none =>
      simp only [newGroupSettings, hlink, Bool.and_self, if_true, hcheck]
      simp
    | some d =>
      rw [hf] at hpol
      simp only [Option.map_some', Option.getD_some] at hpol
      simp only [hpol, hlink, Bool.and_self, if_true, hcheck]
      simp

theorem failed_lookup_propagates_witness :
    noMetadataEnv.groupMetadata linkMessage.key.remoteJid = .error "timed out" ∧
      checkIfAdmin noMetadataEnv linkMessage.key.participant linkMessage.key.remoteJid =
        .error "timed out" ∧
      (handleIncomingMessages noMetadataEnv freshState (some linkMessage)).1 =
        .error "timed out" ∧
      (handleIncomingMessages noMetadataEnv freshState (some linkMessage)).2.calls =
        freshState.calls :=
  ⟨rfl,
    (failed_lookup_propagates noMetadataEnv freshState linkMessage
      { conversation := some "check http://evil.example", extendedTextMessage := none }
      "timed out" rfl).1,
    (failed_lookup_propagates noMetadataEnv freshState linkMessage
      { conversation := some "check http://evil.example", extendedTextMessage := none }
      "timed out" rfl).2.2 rfl rfl (by decide) rfl (by decide) (by decide)⟩


/-! ## Claims on the classifier, the command router and the supervisor -/

/-- C2: `linkRegex.test(text)` is true exactly when the text contains, in any
letter case, `http://`, `https://` or `www.` followed by a non-whitespace
character, or one or more labels over `[A-Za-z0-9-]`, each followed by `.`, and
then a final label of two or more ASCII letters; it is false for every other
text, the empty text of a message without text included. -/
theorem classifier_agrees_with_spec (text : String) :
    (linkRegexTest text = true ↔ SpecContainsLink text) ∧
    (linkRegexTest text = false ↔ ¬ SpecContainsLink text) ∧
    messageText (some { conversation := none, extendedTextMessage := none }) = "" ∧
    messageText none = "" ∧
    linkRegexTest "" = false := by
  refine ⟨linkRegexTest_iff_spec text, ?_, rfl, rfl, by decide⟩
  rw [← linkRegexTest_iff_spec text]
  simp

/-- C4: an elevated sender sends a letter-case variant of `!antilink off` in a
group; after `handleCommands` the group's `antiLink` is false and the
confirmation was sent, whatever the collection held before; every later
message of that group that contains a link, from any sender and under any
answers of the backend, handled by the listener before another command,
leaves the calls (and the collection) as they were: no warning, deletion or
removal. -/
theorem antilink_off_disables_enforcement (env : Env) (st : State) (msg : WAMessage)
    (group : GroupMetadata) (later : List (Env × WAMessage))
    (hjid : isGroupJid msg.key.remoteJid = true)
    (hcase : (messageText msg.message).toList.map Char.toLower = "!antilink off".toList)
    (hmeta : env.groupMetadata msg.key.remoteJid = .ok group)
    (hadmin : truthy (adminFlag group msg.key.participant) = true)
    (hdb : env.dbError = none)
    (hlater : ∀ p ∈ later, p.2.key.remoteJid = msg.key.remoteJid ∧
      linkRegexTest (messageText p.2.message) = true) :
    linkPolicy (handleCommands env st msg).2.store msg.key.remoteJid = some false ∧
    (handleCommands env st msg).2.calls =
      st.calls ++ [.sendMessage msg.key.remoteJid (.text "❌ Anti-link has been *disabled*." [])] ∧
    handleAll (handleCommands env st msg).2 later = (handleCommands env st msg).2 := by
  have hoff := handleCommands_off env st msg group hjid hcase hmeta hadmin hdb
  have hpol : linkPolicy (handleCommands env st msg).2.store msg.key.remoteJid = some false := by
    rw [hoff]
    exact linkPolicy_upsert _ _ _
  refine ⟨hpol, ?_, ?_⟩
  · rw [hoff]; rfl
  · exact handleAll_allowed_links msg.key.remoteJid later _ hpol hlater

theorem antilink_off_disables_enforcement_witness :
    isGroupJid (sampleMessage "owner@s.whatsapp.net" "!AntiLink OFF").key.remoteJid = true ∧
      (messageText (sampleMessage "owner@s.whatsapp.net" "!AntiLink OFF").message).toList.map
        Char.toLower = "!antilink off".toList ∧
      truthy (adminFlag sampleGroup "owner@s.whatsapp.net") = true ∧
      handleAll (handleCommands calmEnv freshState
          (sampleMessage "owner@s.whatsapp.net" "!AntiLink OFF")).2
          [(calmEnv, linkMessage), (noDeleteEnv, sampleMessage "owner@s.whatsapp.net" "www.x.io")] =
        (handleCommands calmEnv freshState
          (sampleMessage "owner@s.whatsapp.net" "!AntiLink OFF")).2 :=
  ⟨by decide, by decide, by decide,
    (antilink_off_disables_enforcement calmEnv freshState
      (sampleMessage "owner@s.whatsapp.net" "!AntiLink OFF") sampleGroup
      [(calmEnv, linkMessage), (noDeleteEnv, sampleMessage "owner@s.whatsapp.net" "www.x.io")]
      (by decide) (by decide) rfl (by decide) rfl (by decide)).2.2⟩

/-- C8: the `connection.update` listener calls `authenticateBot()` exactly once
for a `close` whose reason is not `DisconnectReason.loggedOut`, also when no
reason is present, and never for a `close` with that reason nor for any other
status, `open` and `qr` included; on the socket made by `startBot` such an
event adds exactly that many sockets. -/
theorem reconnect_unless_logged_out (loggedOut : Int) (update : ConnectionUpdate) :
    attempts (onConnectionUpdate loggedOut update) =
      (if update.connection = some "close" ∧ closeReason update ≠ some loggedOut then 1 else 0) ∧
    attempts (onConnectionUpdate loggedOut
      { connection := some "close", lastDisconnect := none, qr := update.qr }) = 1 ∧
    attempts (onConnectionUpdate loggedOut (closeUpdate (some loggedOut))) = 0 ∧
    attempts (onConnectionUpdate loggedOut { update with connection := some "open" }) = 0 ∧
    attempts (onConnectionUpdate loggedOut { update with connection := some "qr" }) = 0 ∧
    (emitConnectionUpdate loggedOut startBot (liveSocket startBot) update).sockets.length =
      startBot.sockets.length +
        (if update.connection = some "close" ∧ closeReason update ≠ some loggedOut then 1
          else 0) := by
  refine ⟨attempts_onConnectionUpdate loggedOut update, ?_, ?_, ?_, ?_, ?_⟩
  · rw [attempts_onConnectionUpdate]; simp [closeReason]
  · rw [attempts_onConnectionUpdate]; simp [closeReason, closeUpdate]
  · rw [attempts_onConnectionUpdate]; simp
  · rw [attempts_onConnectionUpdate]; simp
  · have hl : hasListener startBot (liveSocket startBot) .connectionUpdate = true := by decide
    unfold emitConnectionUpdate
    rw [hl]
    simp only [if_true]
    rw [runEffects_length, attempts_onConnectionUpdate]

/-- C9, the code at the failing input: two runs of the "fetch group settings"
step for one new group, the second `findOne` answered before the first `save`;
both find nothing, both save, and the collection holds two documents for the
group. One run after the other leaves one. -/
theorem interleaved_fetch_duplicates_record :
    runSchedule "120363@g.us" [0, 1, 0, 1] ([], [.start, .start]) =
        ([{ groupId := "120363@g.us", antiLink := true },
          { groupId := "120363@g.us", antiLink := true }],
         [.done { groupId := "120363@g.us", antiLink := true },
          .done { groupId := "120363@g.us", antiLink := true }]) ∧
      recordCount (runSchedule "120363@g.us" [0, 1, 0, 1] ([], [.start, .start])).1
        "120363@g.us" = 2 ∧
      recordCount (runSchedule "120363@g.us" [0, 0, 1, 1] ([], [.start, .start])).1
        "120363@g.us" = 1 := by
  decide

/-- C10, the code at the failing input: the first session drops with status 428,
not a logout; `authenticateBot()` makes a second socket, which is the live one
and has no `messages.upsert` listener, so a link posted there by a plain member
reaches neither handler, while the same message on the first session was
remediated. -/
theorem reconnected_session_drops_messages :
    hasListener startBot (liveSocket startBot) .messagesUpsert = true ∧
      (emitMessagesUpsert calmEnv startBot freshState (liveSocket startBot)
        (some [linkMessage])).2.calls = remediation linkMessage ∧
      liveSocket (emitConnectionUpdate 401 startBot (liveSocket startBot)
        (closeUpdate (some 428))) = 1 ∧
      hasListener (emitConnectionUpdate 401 startBot (liveSocket startBot)
          (closeUpdate (some 428)))
        (liveSocket (emitConnectionUpdate 401 startBot (liveSocket startBot)
          (closeUpdate (some 428)))) .messagesUpsert = false ∧
      emitMessagesUpsert calmEnv
          (emitConnectionUpdate 401 startBot (liveSocket startBot) (closeUpdate (some 428)))
          freshState
          (liveSocket (emitConnectionUpdate 401 startBot (liveSocket startBot)
            (closeUpdate (some 428))))
          (some [linkMessage]) = (.ok (), freshState) := by
  refine ⟨by decide, by decide, by decide, by decide, ?_⟩
  rfl


end Antilink
